import Mathlib

/-!
# Verification of the markdown-translator pipeline (`src/translator.py`)

A shallow embedding of the structure-preserving translation pipeline.
Documents are modelled as `List Char` (Python `str`).  Each regex-based
transformation of the source is implemented as an executable scanner that
mirrors the semantics of the concrete Python regular expression it embeds
(leftmost match, one-character advance on failure, greedy/lazy quantifier
behaviour derived for the specific pattern).  Recursion that consumes a
computed suffix uses an explicit fuel argument (one unit per consumed
character); every wrapper supplies `length + 1` fuel, which can never be
exhausted, so the wrapper behaviour coincides with the Python function.

The opaque translation backend (`GoogleTranslator(...).translate`) is a
parameter `Backend := List Char → BResult`; `BResult` distinguishes a
successful reply (possibly `None` or empty, both falsy in Python) from a
raised exception.  Replacement strings are inserted literally (the source
inserts backend-free content whose backslash escapes are not exercised by
any theorem below).
-/

namespace MdTranslator

/-- Documents and fragments are plain character lists (Python `str`). -/
abbrev Str := List Char

/-- Python whitespace (`str.strip`, regex `\s` on ASCII). -/
def isWs (c : Char) : Bool :=
  c == ' ' || c == '\t' || c == '\n' || c == '\r' || c == '\x0b' || c == '\x0c'

/-- `str.lstrip()`. -/
def stripL (s : Str) : Str := s.dropWhile isWs

/-- `str.rstrip()`. -/
def stripR (s : Str) : Str := (s.reverse.dropWhile isWs).reverse

/-- `str.strip()`. -/
def strip (s : Str) : Str := stripR (stripL s)

/-- Decimal digit character. -/
def digitChar (n : Nat) : Char := Char.ofNat (48 + n)

/-- Decimal representation of a natural number (fuelled, structural). -/
def natStrAux : Nat → Nat → Str
  | 0, _ => []
  | f + 1, n => if n < 10 then [digitChar n] else natStrAux f (n / 10) ++ [digitChar (n % 10)]

/-- Decimal representation of a natural number, as used in `f"<<KIND_{i}>>"`. -/
def natStr (n : Nat) : Str := natStrAux (n + 1) n

/-- Whether `pat` occurs as a contiguous substring (`in` for Python `str`). -/
def hasSub (pat : Str) : Str → Bool
  | [] => pat.isEmpty
  | c :: cs => pat.isPrefixOf (c :: cs) || hasSub pat cs

/-- First occurrence of `pat`: `some (before, after)` splits around it. -/
def findSub (pat : Str) : Str → Option (Str × Str)
  | [] => if pat.isEmpty then some ([], []) else none
  | c :: cs =>
    if pat.isPrefixOf (c :: cs) then some ([], (c :: cs).drop pat.length)
    else (findSub pat cs).map (fun p => (c :: p.1, p.2))

/-- `str.replace(pat, rep)`: replace all occurrences, left to right, the
replacement itself is never rescanned.  Fuelled scanner. -/
def strReplaceAux (pat rep : Str) : Nat → Str → Str
  | 0, s => s
  | _ + 1, [] => []
  | f + 1, c :: cs =>
    if pat.isPrefixOf (c :: cs) then rep ++ strReplaceAux pat rep f ((c :: cs).drop pat.length)
    else c :: strReplaceAux pat rep f cs

/-- `str.replace(pat, rep)` (all occurrences). -/
def strReplace (pat rep s : Str) : Str := strReplaceAux pat rep (s.length + 1) s

/-- `str.split('\n')`. -/
def splitNl : Str → List Str
  | [] => [[]]
  | c :: cs =>
    if c = '\n' then [] :: splitNl cs
    else
      match splitNl cs with
      | [] => [[c]]
      | l :: ls => (c :: l) :: ls

/-- `'\n'.join(lines)`. -/
def joinNl : List Str → Str
  | [] => []
  | [l] => l
  | l :: ls => l ++ '\n' :: joinNl ls

/-- Case-insensitive literal match of `pat` at the head; returns the
consumed characters (as they appear in the text) and the rest. -/
def ciMatch : Str → Str → Option (Str × Str)
  | [], s => some ([], s)
  | _, [] => none
  | p :: ps, c :: cs =>
    if c.toLower = p.toLower then (ciMatch ps cs).map (fun q => (c :: q.1, q.2))
    else none

/-! ## Translation adapter (`translate_text_fragment`, lines 136-149) -/

/-- Outcome of one call to the opaque backend: a reply (`None` and `""` are
falsy in Python and modelled as `ok none` / `ok (some [])`), or a raised
exception. -/
inductive BResult where
  | ok (res : Option Str)
  | err
  deriving DecidableEq

/-- The opaque translation backend `GoogleTranslator(source='auto', ...).translate`. -/
abbrev Backend := Str → BResult

/-- `translate_text_fragment`, instrumented: result, the list of inputs
actually passed to the backend, and whether the error diagnostic was
printed.  Empty/whitespace-only input returns unchanged without a call;
an exception yields a diagnostic and the original text; a falsy reply
(`None`/`""`) also yields the original text. -/
def translateTextFragmentT (b : Backend) (text : Str) : Str × List Str × Bool :=
  if (strip text).isEmpty then (text, [], false)
  else
    match b text with
    | .ok none => (text, [text], false)
    | .ok (some t) => (if t.isEmpty then text else t, [text], false)
    | .err => (text, [text], true)

/-- `translate_text_fragment` (value behaviour). -/
def translateTextFragment (b : Backend) (text : Str) : Str :=
  (translateTextFragmentT b text).1

/-- Backend behaving as the identity (always succeeds with its input). -/
def idBackend : Backend := fun s => .ok (some s)

/-- Backend raising an exception on every call. -/
def failBackend : Backend := fun _ => .err

/-- Backend that prefixes a visible tag to its input, used to observe which
fragments are passed to translation. -/
def tagBackend : Backend := fun s => .ok (some ("[T]".data ++ s))

/-- Backend replying a fixed word on every call. -/
def helloBackend : Backend := fun _ => .ok (some "hello".data)

/-! ## Fragment extraction -/

/-- Placeholder token `f"<<{kind}_{i}>>"`. -/
def phToken (kind : Str) (i : Nat) : Str :=
  '<' :: '<' :: (kind ++ '_' :: (natStr i ++ ['>', '>']))

/-- `extract_footnote_refs` match attempt: regex `\[\^[^\]]+\]` at the head.
Greedy `[^\]]+` takes the maximal run of non-`]` characters. -/
def fnTry : Str → Option (Str × Str)
  | '[' :: '^' :: t =>
    let run := t.takeWhile (fun c => c ≠ ']')
    if run.isEmpty then none
    else
      match t.drop run.length with
      | ']' :: r => some ('[' :: '^' :: (run ++ [']']), r)
      | _ => none
  | _ => none

/-- `text[pos:].lstrip().startswith(':')` guarded by `pos < len(text)`:
a footnote reference is a definition marker when the remaining text,
leading whitespace stripped, begins with a colon. -/
def colonFollows (rest : Str) : Bool :=
  !rest.isEmpty &&
    (match stripL rest with
     | ':' :: _ => true
     | _ => false)

/-- Scanner for `re.sub(r'\[\^[^\]]+\]', repl, text)` with the
definition-marker check of `extract_footnote_refs` (lines 14-28). -/
def extractFootnoteRefsAux : Nat → Str → List Str → Str × List Str
  | 0, s, refs => (s, refs)
  | _ + 1, [], refs => ([], refs)
  | f + 1, c :: cs, refs =>
    if c = '[' then
      match fnTry (c :: cs) with
      | some (m, rest) =>
        if colonFollows rest then
          let (o, r2) := extractFootnoteRefsAux f rest refs
          (m ++ o, r2)
        else
          let (o, r2) := extractFootnoteRefsAux f rest (refs ++ [m])
          (phToken "FOOTNOTE_REF".data refs.length ++ o, r2)
      | none =>
        let (o, r2) := extractFootnoteRefsAux f cs refs
        (c :: o, r2)
    else
      let (o, r2) := extractFootnoteRefsAux f cs refs
      (c :: o, r2)

/-- `extract_footnote_refs(text)`. -/
def extractFootnoteRefs (s : Str) : Str × List Str :=
  extractFootnoteRefsAux (s.length + 1) s []

/-- `extract_inline_code` match attempt: regex `` `[^`]+` `` at the head. -/
def icTry : Str → Option (Str × Str)
  | '`' :: t =>
    let run := t.takeWhile (fun c => c ≠ '`')
    if run.isEmpty then none
    else
      match t.drop run.length with
      | '`' :: r => some ('`' :: (run ++ ['`']), r)
      | _ => none
  | _ => none

/-- Scanner for `` re.sub(r'`[^`]+`', code_repl, text) `` (lines 36-49). -/
def extractInlineCodeAux : Nat → Str → List Str → Str × List Str
  | 0, s, acc => (s, acc)
  | _ + 1, [], acc => ([], acc)
  | f + 1, c :: cs, acc =>
    if c = '`' then
      match icTry (c :: cs) with
      | some (m, rest) =>
        let (o, a2) := extractInlineCodeAux f rest (acc ++ [m])
        (phToken "INLINECODE".data acc.length ++ o, a2)
      | none =>
        let (o, a2) := extractInlineCodeAux f cs acc
        (c :: o, a2)
    else
      let (o, a2) := extractInlineCodeAux f cs acc
      (c :: o, a2)

/-- `extract_inline_code(text)`. -/
def extractInlineCode (s : Str) : Str × List Str :=
  extractInlineCodeAux (s.length + 1) s []

/-- Structured record for `extract_md_images_and_links` table entries. -/
structure MdLink where
  isImage : Bool
  label : Str
  url : Str
  deriving DecidableEq

/-- Lazy group `(.*?)` followed by the literal `delim`: the group contains
no newline and stops at the first occurrence of `delim`. -/
def lazyTo (delim : Str) : Str → Option (Str × Str)
  | [] => if delim.isEmpty then some ([], []) else none
  | c :: cs =>
    if delim.isPrefixOf (c :: cs) then some ([], (c :: cs).drop delim.length)
    else if c = '\n' then none
    else (lazyTo delim cs).map (fun p => (c :: p.1, p.2))

/-- Image match attempt: regex `!\[(.*?)\]\((.*?)\)` at the head. -/
def imgTry : Str → Option (Str × Str × Str)
  | '!' :: '[' :: t =>
    match lazyTo [']', '('] t with
    | some (label, t2) =>
      match lazyTo [')'] t2 with
      | some (url, rest) => some (label, url, rest)
      | none => none
    | none => none
  | _ => none

/-- Link match attempt: regex `\[(.*?)\]\((.*?)\)` at the head. -/
def lnkTry : Str → Option (Str × Str × Str)
  | '[' :: t =>
    match lazyTo [']', '('] t with
    | some (label, t2) =>
      match lazyTo [')'] t2 with
      | some (url, rest) => some (label, url, rest)
      | none => none
    | none => none
  | _ => none

/-- Scanner for the image pass `re.sub(r'!\[(.*?)\]\((.*?)\)', image_repl, text)`. -/
def imgPassAux : Nat → Str → List MdLink → Str × List MdLink
  | 0, s, acc => (s, acc)
  | _ + 1, [], acc => ([], acc)
  | f + 1, c :: cs, acc =>
    if c = '!' then
      match imgTry (c :: cs) with
      | some (label, url, rest) =>
        let (o, a2) := imgPassAux f rest (acc ++ [⟨true, label, url⟩])
        (phToken "MDLINK".data acc.length ++ o, a2)
      | none =>
        let (o, a2) := imgPassAux f cs acc
        (c :: o, a2)
    else
      let (o, a2) := imgPassAux f cs acc
      (c :: o, a2)

/-- Scanner for the link pass `re.sub(r'\[(.*?)\]\((.*?)\)', link_repl, text)`. -/
def lnkPassAux : Nat → Str → List MdLink → Str × List MdLink
  | 0, s, acc => (s, acc)
  | _ + 1, [], acc => ([], acc)
  | f + 1, c :: cs, acc =>
    if c = '[' then
      match lnkTry (c :: cs) with
      | some (label, url, rest) =>
        let (o, a2) := lnkPassAux f rest (acc ++ [⟨false, label, url⟩])
        (phToken "MDLINK".data acc.length ++ o, a2)
      | none =>
        let (o, a2) := lnkPassAux f cs acc
        (c :: o, a2)
    else
      let (o, a2) := lnkPassAux f cs acc
      (c :: o, a2)

/-- `extract_md_images_and_links(text)`: images first, then plain links,
appending to the same table (lines 60-95). -/
def extractMdImagesAndLinks (s : Str) : Str × List MdLink :=
  let p1 := imgPassAux (s.length + 1) s []
  lnkPassAux (p1.1.length + 1) p1.1 p1.2

/-- Callout match attempt: regex `:::\s*\{[^\}]+\}[\s\S]*?(?=\n:::)\n:::`
at the head.  `\s*` is greedy and must be followed by `{` (not a
whitespace character, so no backtracking choice); `[^\}]+` is the maximal
nonempty run up to `}`; the lazy tail stops at the first `\n:::`. -/
def calloutTry : Str → Option (Str × Str)
  | ':' :: ':' :: ':' :: t =>
    let ws := t.takeWhile isWs
    match t.drop ws.length with
    | '{' :: u =>
      let attr := u.takeWhile (fun c => c ≠ '}')
      if attr.isEmpty then none
      else
        match u.drop attr.length with
        | '}' :: v =>
          match findSub ['\n', ':', ':', ':'] v with
          | some (mid, after) =>
            some (':' :: ':' :: ':' ::
              (ws ++ '{' :: (attr ++ '}' :: (mid ++ ['\n', ':', ':', ':']))), after)
          | none => none
        | _ => none
    | _ => none
  | _ => none

/-- Scanner for `extract_callout_blocks` (lines 161-175). -/
def extractCalloutBlocksAux : Nat → Str → List Str → Str × List Str
  | 0, s, acc => (s, acc)
  | _ + 1, [], acc => ([], acc)
  | f + 1, c :: cs, acc =>
    if c = ':' then
      match calloutTry (c :: cs) with
      | some (m, rest) =>
        let (o, a2) := extractCalloutBlocksAux f rest (acc ++ [m])
        (phToken "CALLOUT".data acc.length ++ o, a2)
      | none =>
        let (o, a2) := extractCalloutBlocksAux f cs acc
        (c :: o, a2)
    else
      let (o, a2) := extractCalloutBlocksAux f cs acc
      (c :: o, a2)

/-- `extract_callout_blocks(text)`. -/
def extractCalloutBlocks (s : Str) : Str × List Str :=
  extractCalloutBlocksAux (s.length + 1) s []

/-- Fenced-code match attempt: regex ```` ```[\s\S]*?``` ```` at the head;
the lazy body stops at the first closing ` ``` `. -/
def cbTry : Str → Option (Str × Str)
  | '`' :: '`' :: '`' :: t =>
    match findSub ['`', '`', '`'] t with
    | some (mid, after) => some ('`' :: '`' :: '`' :: (mid ++ ['`', '`', '`']), after)
    | none => none
  | _ => none

/-- Scanner for the code-block extraction in `process_file` (lines 183-187). -/
def extractCodeBlocksAux : Nat → Str → List Str → Str × List Str
  | 0, s, acc => (s, acc)
  | _ + 1, [], acc => ([], acc)
  | f + 1, c :: cs, acc =>
    if c = '`' then
      match cbTry (c :: cs) with
      | some (m, rest) =>
        let (o, a2) := extractCodeBlocksAux f rest (acc ++ [m])
        (phToken "CODEBLOCK".data acc.length ++ o, a2)
      | none =>
        let (o, a2) := extractCodeBlocksAux f cs acc
        (c :: o, a2)
    else
      let (o, a2) := extractCodeBlocksAux f cs acc
      (c :: o, a2)

/-- Code-block extraction step of `process_file`. -/
def extractCodeBlocks (s : Str) : Str × List Str :=
  extractCodeBlocksAux (s.length + 1) s []

/-- YAML step of `process_file` (lines 198-203): `re.match(r'^---[\s\S]*?---', content)`
anchored at the start, lazy body up to the first subsequent `---`; on a match
every occurrence of the matched string is replaced by `<<YAML>>`. -/
def extractYamlFrontmatter (s : Str) : Str × Option Str :=
  match s with
  | '-' :: '-' :: '-' :: t =>
    match findSub ['-', '-', '-'] t with
    | some (mid, _) =>
      let y : Str := '-' :: '-' :: '-' :: (mid ++ ['-', '-', '-'])
      (strReplace y "<<YAML>>".data s, some y)
    | none => (s, none)
  | _ => (s, none)

/-! ## Bold/italic span translation (`translate_bold_italic`, lines 118-134) -/

/-- Bold match attempt: regex `\*\*([^\*]+?)\*\*` at the head.  The lazy
group cannot contain `*`, so it is the maximal star-free run, which must
be followed by `**`. -/
def biBoldTry : Str → Option (Str × Str)
  | '*' :: '*' :: t =>
    let run := t.takeWhile (fun c => c ≠ '*')
    if run.isEmpty then none
    else
      match t.drop run.length with
      | '*' :: '*' :: r => some (run, r)
      | _ => none
  | _ => none

/-- Italic match attempt: regex `\*([^\*]+?)\*(?!\*)` at the head (the
lookbehind `(?<!\*)` is handled by the caller).  The closing `*` must not
be followed by another `*`. -/
def biItalTry : Str → Option (Str × Str)
  | '*' :: t =>
    let run := t.takeWhile (fun c => c ≠ '*')
    if run.isEmpty then none
    else
      match t.drop run.length with
      | '*' :: r => if r.head? = some '*' then none else some (run, r)
      | _ => none
  | _ => none

/-- Bold pass of `translate_bold_italic`: each group is translated and
re-wrapped as `f"**{...}**"`. -/
def biBoldAux (b : Backend) : Nat → Str → Str
  | 0, s => s
  | _ + 1, [] => []
  | f + 1, c :: cs =>
    if c = '*' then
      match biBoldTry (c :: cs) with
      | some (g, rest) =>
        '*' :: '*' :: (translateTextFragment b g ++ '*' :: '*' :: biBoldAux b f rest)
      | none => c :: biBoldAux b f cs
    else c :: biBoldAux b f cs

/-- Italic pass of `translate_bold_italic`; `prevStar` tracks whether the
previous character of the text being scanned is `*` (the `(?<!\*)`
lookbehind). -/
def biItalAux (b : Backend) : Nat → Bool → Str → Str
  | 0, _, s => s
  | _ + 1, _, [] => []
  | f + 1, prevStar, c :: cs =>
    if c = '*' ∧ prevStar = false then
      match biItalTry (c :: cs) with
      | some (g, rest) =>
        '*' :: (translateTextFragment b g ++ '*' :: biItalAux b f true rest)
      | none => c :: biItalAux b f (c = '*') cs
    else c :: biItalAux b f (c = '*') cs

/-- `translate_bold_italic(text)`: bold spans first, then italic spans. -/
def translateBoldItalic (b : Backend) (s : Str) : Str :=
  let s1 := biBoldAux b (s.length + 1) s
  biItalAux b (s1.length + 1) false s1

/-! ## Spacing normalization (`fix_markdown_spacing`, lines 151-159) -/

/-- Group kept by the spacing regexes `\*\*\s*([^\*]+?)\s*\*\*` and
`\*\s*([^\*]+?)\s*\*`: for a star-free interior `run` between the
delimiters, backtracking yields the stripped interior, except that for an
all-whitespace interior the lazy group ends up holding its last character. -/
def spacingGroup (run : Str) : Str :=
  let g := strip run
  if g.isEmpty then [run.getLastD ' '] else g

/-- Bold spacing match attempt at the head. -/
def fixBoldTry : Str → Option (Str × Str)
  | '*' :: '*' :: t =>
    let run := t.takeWhile (fun c => c ≠ '*')
    if run.isEmpty then none
    else
      match t.drop run.length with
      | '*' :: '*' :: r => some (spacingGroup run, r)
      | _ => none
  | _ => none

/-- Italic spacing match attempt at the head (lookahead `(?!\*)` included,
lookbehind handled by the caller). -/
def fixItalTry : Str → Option (Str × Str)
  | '*' :: t =>
    let run := t.takeWhile (fun c => c ≠ '*')
    if run.isEmpty then none
    else
      match t.drop run.length with
      | '*' :: r => if r.head? = some '*' then none else some (spacingGroup run, r)
      | _ => none
  | _ => none

/-- Scanner for `re.sub(r'\*\*\s*([^\*]+?)\s*\*\*', r'**\1**', text)`. -/
def fixBoldAux : Nat → Str → Str
  | 0, s => s
  | _ + 1, [] => []
  | f + 1, c :: cs =>
    if c = '*' then
      match fixBoldTry (c :: cs) with
      | some (g, rest) => '*' :: '*' :: (g ++ '*' :: '*' :: fixBoldAux f rest)
      | none => c :: fixBoldAux f cs
    else c :: fixBoldAux f cs

/-- Scanner for `re.sub(r'(?<!\*)\*\s*([^\*]+?)\s*\*(?!\*)', r'*\1*', text)`. -/
def fixItalAux : Nat → Bool → Str → Str
  | 0, _, s => s
  | _ + 1, _, [] => []
  | f + 1, prevStar, c :: cs =>
    if c = '*' ∧ prevStar = false then
      match fixItalTry (c :: cs) with
      | some (g, rest) => '*' :: (g ++ '*' :: fixItalAux f true rest)
      | none => c :: fixItalAux f (c = '*') cs
    else c :: fixItalAux f (c = '*') cs

/-- `fix_markdown_spacing(text)`. -/
def fixMarkdownSpacing (s : Str) : Str :=
  let s1 := fixBoldAux (s.length + 1) s
  fixItalAux (s1.length + 1) false s1

/-! ## Line processing (`process_file` lines 205-242) -/

/-- Skip condition of the line loop (line 214):
`(line.strip().startswith('<<') and line.strip().endswith('>>')) or not line.strip()`. -/
def skipLine (line : Str) : Bool :=
  let t := strip line
  (("<<".data.isPrefixOf t) && (">>".data.isSuffixOf t)) || t.isEmpty

/-- Modelled from the spec: a line that "consists solely of one placeholder
token" (optional leading/trailing whitespace): after stripping, the line is
`<<`, a nonempty body free of angle brackets and whitespace, then `>>`.
Used to compare the skip condition against the wording of the spec. -/
def specPlaceholderOnly (line : Str) : Bool :=
  let t := strip line
  ("<<".data.isPrefixOf t) && (">>".data.isSuffixOf t) &&
    (let mid := (t.drop 2).dropLast.dropLast
     !mid.isEmpty && mid.all (fun c => c ≠ '<' && c ≠ '>' && !isWs c))

/-- First alternative of the footnote-definition regex: `\[\^[^\]]+\]:`. -/
def defTry1 : Str → Option (Str × Str)
  | '[' :: '^' :: t =>
    let run := t.takeWhile (fun c => c ≠ ']')
    if run.isEmpty then none
    else
      match t.drop run.length with
      | ']' :: ':' :: r => some ('[' :: '^' :: (run ++ [']', ':']), r)
      | _ => none
  | _ => none

/-- Second alternative: `\<\<FOOTNOTE_REF_\d+\>\>:`. -/
def defTry2 (line : Str) : Option (Str × Str) :=
  if "<<FOOTNOTE_REF_".data.isPrefixOf line then
    let t := line.drop "<<FOOTNOTE_REF_".data.length
    let ds := t.takeWhile Char.isDigit
    if ds.isEmpty then none
    else
      match t.drop ds.length with
      | '>' :: '>' :: ':' :: r =>
        some ("<<FOOTNOTE_REF_".data ++ ds ++ ['>', '>', ':'], r)
      | _ => none
  else none

/-- `re.match(r'^(\[\^[^\]]+\]:|\<\<FOOTNOTE_REF_\d+\>\>:)(.*)', line)`,
returning `(marker, rest)`; the `(.*)` group is the rest of the line up
to a newline (taken by the caller). -/
def defLineMatch (line : Str) : Option (Str × Str) :=
  match defTry1 line with
  | some m => some m
  | none => defTry2 line

/-- One iteration of the line loop of `process_file` (lines 212-234):
skip placeholder-only/blank lines; footnote definitions keep their marker
and translate only the stripped text after it; other lines get
bold/italic translation, spacing normalization, and whole-line translation. -/
def processLine (b : Backend) (line : Str) : Str :=
  if skipLine line then line
  else
    match defLineMatch line with
    | some (marker, rest) =>
      let txt0 := rest.takeWhile (fun c => c ≠ '\n')
      let t1 := translateBoldItalic b (strip txt0)
      let t2 := fixMarkdownSpacing t1
      let t3 := translateTextFragment b t2
      marker ++ ' ' :: t3
    | none =>
      let l2 := translateBoldItalic b line
      let l3 := fixMarkdownSpacing l2
      translateTextFragment b l3

/-! ## Restoration (lines 30-34, 51-58, 97-116, 244-264) -/

/-- `restore_footnote_refs(text, refs)`: exact `str.replace` per index. -/
def restoreFootnoteRefs (refs : List Str) (text : Str) : Str :=
  refs.enum.foldl (fun t p => strReplace (phToken "FOOTNOTE_REF".data p.1) p.2 t) text

/-- Restoration loop for callouts (lines 249-250): exact `str.replace`. -/
def restoreCallouts (callouts : List Str) (text : Str) : Str :=
  callouts.enum.foldl (fun t p => strReplace (phToken "CALLOUT".data p.1) p.2 t) text

/-- Restoration loop for code blocks (lines 251-252): exact `str.replace`. -/
def restoreCodeBlocks (blocks : List Str) (text : Str) : Str :=
  blocks.enum.foldl (fun t p => strReplace (phToken "CODEBLOCK".data p.1) p.2 t) text

/-- YAML restoration (lines 245-246): exact `str.replace` of `<<YAML>>`. -/
def restoreYaml (y : Option Str) (text : Str) : Str :=
  match y with
  | some yy => strReplace "<<YAML>>".data yy text
  | none => text

/-- One parsed item of a `re.sub` replacement template: a literal
character, or a reference to group 0 (the whole match). -/
inductive TItem where
  | lit (c : Char)
  | group0
  deriving DecidableEq

/-- A parsed replacement template. -/
abbrev Template := List TItem

/-- Standard escapes of replacement templates (sre `ESCAPES`). -/
def escMap (c : Char) : Option Char :=
  if c = 'a' then some '\x07'
  else if c = 'b' then some '\x08'
  else if c = 'f' then some '\x0c'
  else if c = 'n' then some '\n'
  else if c = 'r' then some '\r'
  else if c = 't' then some '\t'
  else if c = 'v' then some '\x0b'
  else if c = '\\' then some '\\'
  else none

/-- Octal digit. -/
def isOctDigit (c : Char) : Bool := '0' ≤ c && c ≤ '7'

/-- ASCII letter (sre `ASCIILETTERS`). -/
def isAsciiLetter (c : Char) : Bool :=
  ('a' ≤ c && c ≤ 'z') || ('A' ≤ c && c ≤ 'Z')

/-- Value of a decimal digit character. -/
def digitVal (c : Char) : Nat := c.toNat - 48

/-- Zero-valued digit tail of a Python integer literal: further `0` digits,
single underscores allowed only between digits. -/
def zeroTail : Str → Bool
  | [] => true
  | '0' :: r => zeroTail r
  | '_' :: '0' :: r => zeroTail r
  | _ => false

/-- Whether Python `int(name)` succeeds on `name` with value `0`
(surrounding whitespace and an optional sign are accepted): the only
`\g<...>` reference that is valid for a pattern without capturing groups. -/
def pyIntIsZero (name : Str) : Bool :=
  match strip name with
  | '+' :: '0' :: r => zeroTail r
  | '-' :: '0' :: r => zeroTail r
  | '0' :: r => zeroTail r
  | _ => false

/-- Replacement-template parsing of `re.sub` (CPython
`re._parser.parse_template`) for a pattern with no capturing groups;
`none` models the raised exception (`re.error` / `IndexError`), which is
raised even when the pattern never matches.  Standard escapes are
expanded, `\0` plus up to two octal digits and three-octal-digit escapes
(at most `\377`) become characters, every numeric group reference other
than group 0 is an error, `\g<...>` whose name Python reads as the
integer 0 refers to the whole match, an unknown ASCII-letter escape or a
trailing backslash is an error, and an escaped non-letter keeps its
backslash. -/
def parseTemplateAux : Nat → Str → Option Template
  | 0, _ => none
  | _ + 1, [] => some []
  | f + 1, c :: cs =>
    if c = '\\' then
      match cs with
      | [] => none
      | e :: r =>
        if e = 'g' then
          match r with
          | '<' :: r2 =>
            match findSub ['>'] r2 with
            | some (name, r3) =>
              if name.isEmpty then none
              else if pyIntIsZero name then
                (parseTemplateAux f r3).map (.group0 :: ·)
              else none
            | none => none
          | _ => none
        else if e = '0' then
          match r with
          | d1 :: d2 :: r2 =>
            if isOctDigit d1 && isOctDigit d2 then
              (parseTemplateAux f r2).map
                (.lit (Char.ofNat (digitVal d1 * 8 + digitVal d2)) :: ·)
            else if isOctDigit d1 then
              (parseTemplateAux f (d2 :: r2)).map
                (.lit (Char.ofNat (digitVal d1)) :: ·)
            else (parseTemplateAux f (d1 :: d2 :: r2)).map (.lit '\x00' :: ·)
          | [d1] =>
            if isOctDigit d1 then
              (parseTemplateAux f []).map (.lit (Char.ofNat (digitVal d1)) :: ·)
            else (parseTemplateAux f [d1]).map (.lit '\x00' :: ·)
          | [] => (parseTemplateAux f []).map (.lit '\x00' :: ·)
        else if e.isDigit then
          match r with
          | d2 :: d3 :: r2 =>
            if d2.isDigit then
              if isOctDigit e && isOctDigit d2 && isOctDigit d3 then
                if digitVal e * 64 + digitVal d2 * 8 + digitVal d3 > 255 then none
                else
                  (parseTemplateAux f r2).map
                    (.lit (Char.ofNat (digitVal e * 64 + digitVal d2 * 8 + digitVal d3)) :: ·)
              else none
            else none
          | _ => none
        else
          match escMap e with
          | some ch => (parseTemplateAux f r).map (.lit ch :: ·)
          | none =>
            if isAsciiLetter e then none
            else (parseTemplateAux f r).map (fun t => .lit '\\' :: (.lit e :: t))
    else (parseTemplateAux f cs).map (.lit c :: ·)

/-- Template parsing of the replacement string of `re.sub`. -/
def parseTemplate (s : Str) : Option Template :=
  parseTemplateAux (s.length + 1) s

/-- Instantiate a parsed template at a match: group 0 is the matched text. -/
def fillTemplate (m : Str) : Template → Str
  | [] => []
  | .lit c :: rest => c :: fillTemplate m rest
  | .group0 :: rest => m ++ fillTemplate m rest

/-- Tolerant token match attempt: regex `<<\s*TOKEN\s*>>` (case-insensitive)
at the head; returns the matched text and the rest after the match. -/
def tolTry (tokenBody : Str) : Str → Option (Str × Str)
  | '<' :: '<' :: t =>
    let w1 := t.takeWhile isWs
    match ciMatch tokenBody (t.drop w1.length) with
    | some (tokPart, t2) =>
      let w2 := t2.takeWhile isWs
      match t2.drop w2.length with
      | '>' :: '>' :: r =>
        some ('<' :: '<' :: (w1 ++ (tokPart ++ (w2 ++ ['>', '>']))), r)
      | _ => none
    | none => none
  | _ => none

/-- Scanner for `re.sub(r'<<\s*TOKEN\s*>>', rep, text, flags=re.IGNORECASE)`
once the replacement template has been parsed: every whitespace/case
tolerant occurrence of the placeholder is replaced by the template filled
at that match. -/
def tolerantSubAux (tokenBody : Str) (tpl : Template) : Nat → Str → Str
  | 0, s => s
  | _ + 1, [] => []
  | f + 1, c :: cs =>
    if c = '<' then
      match tolTry tokenBody (c :: cs) with
      | some (m, rest) => fillTemplate m tpl ++ tolerantSubAux tokenBody tpl f rest
      | none => c :: tolerantSubAux tokenBody tpl f cs
    else c :: tolerantSubAux tokenBody tpl f cs

/-- Tolerant placeholder substitution with a parsed replacement template
(used for `INLINECODE` and `MDLINK`). -/
def tolerantSub (tokenBody : Str) (tpl : Template) (s : Str) : Str :=
  tolerantSubAux tokenBody tpl (s.length + 1) s

/-- `restore_inline_code(text, inline_codes)` (lines 51-58): tolerant,
case-insensitive placeholder matching; each table entry is a replacement
string whose template `re.sub` parses (even with zero matches), so an
entry with a bad escape raises — modelled as `none`. -/
def restoreInlineCode (codes : List Str) (text : Str) : Option Str :=
  codes.enum.foldl
    (fun acc p => acc.bind (fun t =>
      (parseTemplate p.2).map (fun tpl =>
        tolerantSub ("INLINECODE_".data ++ natStr p.1) tpl t)))
    (some text)

/-- Markdown rebuilt by `restore_md_images_and_links`: label translated at
restoration time, URL reinserted unmodified. -/
def mdLinkMarkdown (b : Backend) (l : MdLink) : Str :=
  if l.isImage then
    '!' :: '[' :: (translateTextFragment b l.label ++ ']' :: '(' :: (l.url ++ [')']))
  else
    '[' :: (translateTextFragment b l.label ++ ']' :: '(' :: (l.url ++ [')']))

/-- `restore_md_images_and_links(text, links)` (lines 97-116): tolerant,
case-insensitive placeholder matching; the replacement is built once per
table entry and passed to `pattern.sub` as a template string, so a rebuilt
markdown with a bad escape raises — modelled as `none`. -/
def restoreMdImagesAndLinks (b : Backend) (links : List MdLink) (text : Str) :
    Option Str :=
  links.enum.foldl
    (fun acc p => acc.bind (fun t =>
      (parseTemplate (mdLinkMarkdown b p.2)).map (fun tpl =>
        tolerantSub ("MDLINK_".data ++ natStr p.1) tpl t)))
    (some text)

/-! ## The pipeline (`process_file`, lines 177-266) -/

/-- Fragment tables and working content of one `process_file` run. -/
structure PState where
  content : Str
  callouts : List Str
  codeBlocks : List Str
  links : List MdLink
  inlineCodes : List Str
  footnoteRefs : List Str
  yaml : Option Str
  deriving DecidableEq

/-- Extraction phase of `process_file` (lines 179-203), in source order:
callouts, code blocks, images/links, inline code, footnote references,
YAML front matter. -/
def extractAll (doc : Str) : PState :=
  let p1 := extractCalloutBlocks doc
  let p2 := extractCodeBlocks p1.1
  let p3 := extractMdImagesAndLinks p2.1
  let p4 := extractInlineCode p3.1
  let p5 := extractFootnoteRefs p4.1
  let p6 := extractYamlFrontmatter p5.1
  ⟨p6.1, p1.2, p2.2, p3.2, p4.2, p5.2, p6.2⟩

/-- Restoration phase of `process_file` (lines 244-261), in source order:
YAML, callouts, code blocks, footnote references, images/links, inline
code last; `none` models an exception raised by a restorer. -/
def restoreAll (b : Backend) (st : PState) (c : Str) : Option Str :=
  (restoreMdImagesAndLinks b st.links
      (restoreFootnoteRefs st.footnoteRefs
        (restoreCodeBlocks st.codeBlocks
          (restoreCallouts st.callouts
            (restoreYaml st.yaml c))))).bind
    (restoreInlineCode st.inlineCodes)

/-- `process_file(content)`: extraction, line-by-line translation,
restoration, and the final `fix_markdown_spacing` cleanup (line 264);
`none` models an exception escaping `process_file` (caught per file by
`main`). -/
def processFile (b : Backend) (doc : Str) : Option Str :=
  let st := extractAll doc
  let lines := splitNl st.content
  let lines2 := lines.map (processLine b)
  let c := joinNl lines2
  (restoreAll b st c).map fixMarkdownSpacing

/-! ## Stage ordering (for the extraction/restoration order contract) -/

/-- The six fragment kinds of the data model. -/
inductive Kind where
  | callout | codeblock | mdlink | inlineCode | footnoteRef | yaml
  deriving DecidableEq

/-- Order in which `process_file` runs the extraction stages (lines 179-203). -/
def extractionOrder : List Kind :=
  [.callout, .codeblock, .mdlink, .inlineCode, .footnoteRef, .yaml]

/-- Order in which `process_file` runs the restoration stages (lines 244-261). -/
def restorationOrder : List Kind :=
  [.yaml, .callout, .codeblock, .footnoteRef, .mdlink, .inlineCode]

/-- One extraction stage, dispatched by kind. -/
def extractStep (st : PState) (k : Kind) : PState :=
  match k with
  | .callout =>
    { st with content := (extractCalloutBlocks st.content).1
              callouts := (extractCalloutBlocks st.content).2 }
  | .codeblock =>
    { st with content := (extractCodeBlocks st.content).1
              codeBlocks := (extractCodeBlocks st.content).2 }
  | .mdlink =>
    { st with content := (extractMdImagesAndLinks st.content).1
              links := (extractMdImagesAndLinks st.content).2 }
  | .inlineCode =>
    { st with content := (extractInlineCode st.content).1
              inlineCodes := (extractInlineCode st.content).2 }
  | .footnoteRef =>
    { st with content := (extractFootnoteRefs st.content).1
              footnoteRefs := (extractFootnoteRefs st.content).2 }
  | .yaml =>
    { st with content := (extractYamlFrontmatter st.content).1
              yaml := (extractYamlFrontmatter st.content).2 }

/-- One restoration stage, dispatched by kind (the fallible stages are
`Option`-valued, the `str.replace` stages always succeed). -/
def restoreStep (b : Backend) (st : PState) (k : Kind) (c : Str) : Option Str :=
  match k with
  | .yaml => some (restoreYaml st.yaml c)
  | .callout => some (restoreCallouts st.callouts c)
  | .codeblock => some (restoreCodeBlocks st.codeBlocks c)
  | .footnoteRef => some (restoreFootnoteRefs st.footnoteRefs c)
  | .mdlink => restoreMdImagesAndLinks b st.links c
  | .inlineCode => restoreInlineCode st.inlineCodes c

/-- Initial pipeline state for a document. -/
def initState (doc : Str) : PState := ⟨doc, [], [], [], [], [], none⟩

end MdTranslator

namespace MdTranslator

/-! ## Basic lemmas about the adapter -/

theorem translateTextFragment_idBackend (s : Str) :
    translateTextFragment idBackend s = s := by
  unfold translateTextFragment translateTextFragmentT idBackend
  by_cases h : (strip s).isEmpty
  · simp [h]
  · simp only [h, Bool.false_eq_true, if_false]
    split <;> simp_all

theorem translateTextFragment_failBackend (s : Str) :
    translateTextFragment failBackend s = s := by
  unfold translateTextFragment translateTextFragmentT failBackend
  by_cases h : (strip s).isEmpty <;> simp [h]

/-! ## split/join lemmas -/

theorem splitNl_ne_nil (s : Str) : splitNl s ≠ [] := by
  induction s with
  | nil => simp [splitNl]
  | cons c cs ih =>
    by_cases h : c = '\n'
    · simp [splitNl, h]
    · simp only [splitNl, if_neg h]
      cases hs : splitNl cs with
      | nil => simp
      | cons l ls => simp

theorem joinNl_cons (l : Str) (ls : List Str) (h : ls ≠ []) :
    joinNl (l :: ls) = l ++ '\n' :: joinNl ls := by
  cases ls with
  | nil => exact absurd rfl h
  | cons a as => rfl

theorem joinNl_splitNl (s : Str) : joinNl (splitNl s) = s := by
  induction s with
  | nil => rfl
  | cons c cs ih =>
    by_cases h : c = '\n'
    · rw [h]
      show joinNl ([] :: splitNl cs) = '\n' :: cs
      rw [joinNl_cons _ _ (splitNl_ne_nil cs), ih]
      rfl
    · simp only [splitNl, if_neg h]
      cases hs : splitNl cs with
      | nil => exact absurd hs (splitNl_ne_nil cs)
      | cons l ls =>
        cases ls with
        | nil =>
          rw [hs] at ih
          show c :: l = c :: cs
          simpa [joinNl] using ih
        | cons l2 ls2 =>
          rw [hs] at ih
          rw [joinNl_cons _ _ (by simp)] at ih ⊢
          simp only [List.cons_append]
          rw [← ih]

theorem splitNl_append (x y : Str) :
    splitNl (x ++ '\n' :: y) = splitNl x ++ splitNl y := by
  induction x with
  | nil => simp [splitNl]
  | cons c cs ih =>
    by_cases h : c = '\n'
    · simp only [List.cons_append, splitNl, if_pos h]
      exact congrArg ([] :: ·) ih
    · simp only [List.cons_append, splitNl, if_neg h]
      cases hs : splitNl cs with
      | nil => exact absurd hs (splitNl_ne_nil cs)
      | cons l ls =>
        simp only [List.append_eq] at ih ⊢
        rw [ih, hs]
        rfl

theorem splitNl_no_nl (s : Str) (h : '\n' ∉ s) : splitNl s = [s] := by
  induction s with
  | nil => rfl
  | cons c cs ih =>
    simp only [List.mem_cons, not_or] at h
    have h1 : c ≠ '\n' := fun hc => h.1 hc.symm
    simp only [splitNl, if_neg h1, ih h.2]

theorem mem_joinNl (L : List Str) (l : Str) (hl : l ∈ L) {c : Char} (hc : c ∈ l) :
    c ∈ joinNl L := by
  induction L with
  | nil => simp at hl
  | cons m ms ih =>
    cases ms with
    | nil =>
      simp only [List.mem_singleton] at hl
      subst hl
      exact hc
    | cons m2 ms2 =>
      rw [joinNl_cons _ _ (by simp)]
      rcases List.mem_cons.mp hl with rfl | hl2
      · exact List.mem_append_left _ hc
      · exact List.mem_append_right _ (List.mem_cons_of_mem _ (ih hl2))

theorem mem_of_mem_splitNl (s l : Str) (hl : l ∈ splitNl s) {c : Char} (hc : c ∈ l) :
    c ∈ s := by
  rw [← joinNl_splitNl s]
  exact mem_joinNl _ _ hl hc

end MdTranslator

namespace MdTranslator

/-! ## Identity lemmas: a scanner leaves text without its trigger characters
unchanged, for every fuel value. -/

theorem extractFootnoteRefsAux_id (s : Str) (h : '[' ∉ s) :
    ∀ f refs, extractFootnoteRefsAux f s refs = (s, refs) := by
  induction s with
  | nil => intro f refs; cases f <;> rfl
  | cons c cs ih =>
    intro f refs
    cases f with
    | zero => rfl
    | succ f =>
      simp only [List.mem_cons, not_or] at h
      have h1 : ¬c = '[' := fun hc => h.1 hc.symm
      simp only [extractFootnoteRefsAux, if_neg h1, ih h.2]

theorem extractFootnoteRefs_id (s : Str) (h : '[' ∉ s) :
    extractFootnoteRefs s = (s, []) :=
  extractFootnoteRefsAux_id s h _ _

theorem extractInlineCodeAux_id (s : Str) (h : '`' ∉ s) :
    ∀ f acc, extractInlineCodeAux f s acc = (s, acc) := by
  induction s with
  | nil => intro f acc; cases f <;> rfl
  | cons c cs ih =>
    intro f acc
    cases f with
    | zero => rfl
    | succ f =>
      simp only [List.mem_cons, not_or] at h
      have h1 : ¬c = '`' := fun hc => h.1 hc.symm
      simp only [extractInlineCodeAux, if_neg h1, ih h.2]

theorem extractInlineCode_id (s : Str) (h : '`' ∉ s) :
    extractInlineCode s = (s, []) :=
  extractInlineCodeAux_id s h _ _

theorem extractCodeBlocksAux_id (s : Str) (h : '`' ∉ s) :
    ∀ f acc, extractCodeBlocksAux f s acc = (s, acc) := by
  induction s with
  | nil => intro f acc; cases f <;> rfl
  | cons c cs ih =>
    intro f acc
    cases f with
    | zero => rfl
    | succ f =>
      simp only [List.mem_cons, not_or] at h
      have h1 : ¬c = '`' := fun hc => h.1 hc.symm
      simp only [extractCodeBlocksAux, if_neg h1, ih h.2]

theorem extractCodeBlocks_id (s : Str) (h : '`' ∉ s) :
    extractCodeBlocks s = (s, []) :=
  extractCodeBlocksAux_id s h _ _

theorem extractCalloutBlocksAux_id (s : Str) (h : ':' ∉ s) :
    ∀ f acc, extractCalloutBlocksAux f s acc = (s, acc) := by
  induction s with
  | nil => intro f acc; cases f <;> rfl
  | cons c cs ih =>
    intro f acc
    cases f with
    | zero => rfl
    | succ f =>
      simp only [List.mem_cons, not_or] at h
      have h1 : ¬c = ':' := fun hc => h.1 hc.symm
      simp only [extractCalloutBlocksAux, if_neg h1, ih h.2]

theorem extractCalloutBlocks_id (s : Str) (h : ':' ∉ s) :
    extractCalloutBlocks s = (s, []) :=
  extractCalloutBlocksAux_id s h _ _

theorem imgTry_eq_none (cs : Str) (h : '[' ∉ cs) : imgTry ('!' :: cs) = none := by
  cases cs with
  | nil => rfl
  | cons c2 cs2 =>
    simp only [List.mem_cons, not_or] at h
    unfold imgTry
    split
    · rename_i heq
      rw [List.cons.injEq, List.cons.injEq] at heq
      exact absurd heq.2.1 (fun e => h.1 e.symm)
    · rfl

theorem imgPassAux_id (s : Str) (h : '[' ∉ s) :
    ∀ f acc, imgPassAux f s acc = (s, acc) := by
  induction s with
  | nil => intro f acc; cases f <;> rfl
  | cons c cs ih =>
    intro f acc
    cases f with
    | zero => rfl
    | succ f =>
      simp only [List.mem_cons, not_or] at h
      by_cases hc : c = '!'
      · subst hc
        simp only [imgPassAux, imgTry_eq_none cs h.2, ih h.2, ite_self]
      · simp only [imgPassAux, if_neg hc, ih h.2]

theorem lnkPassAux_id (s : Str) (h : '[' ∉ s) :
    ∀ f acc, lnkPassAux f s acc = (s, acc) := by
  induction s with
  | nil => intro f acc; cases f <;> rfl
  | cons c cs ih =>
    intro f acc
    cases f with
    | zero => rfl
    | succ f =>
      simp only [List.mem_cons, not_or] at h
      have h1 : ¬c = '[' := fun hc => h.1 hc.symm
      simp only [lnkPassAux, if_neg h1, ih h.2]

theorem extractMdImagesAndLinks_id (s : Str) (h : '[' ∉ s) :
    extractMdImagesAndLinks s = (s, []) := by
  unfold extractMdImagesAndLinks
  rw [imgPassAux_id s h]
  exact lnkPassAux_id s h _ _

theorem extractYamlFrontmatter_id (s : Str)
    (h : "---".data.isPrefixOf s = false) :
    extractYamlFrontmatter s = (s, none) := by
  have hd : "---".data = ['-', '-', '-'] := rfl
  unfold extractYamlFrontmatter
  split
  · rw [hd] at h
    simp [List.isPrefixOf] at h
  · rfl

theorem strReplaceAux_id (pat : Str) (rep : Str) (s : Str) (h : hasSub pat s = false) :
    ∀ f, strReplaceAux pat rep f s = s := by
  induction s with
  | nil => intro f; cases f <;> rfl
  | cons c cs ih =>
    intro f
    cases f with
    | zero => rfl
    | succ f =>
      simp only [hasSub, Bool.or_eq_false_iff] at h
      simp only [strReplaceAux, h.1, Bool.false_eq_true, if_false, ih h.2]

theorem strReplace_id (pat rep s : Str) (h : hasSub pat s = false) :
    strReplace pat rep s = s :=
  strReplaceAux_id pat rep s h _

theorem tolerantSubAux_id (tokenBody : Str) (tpl : Template) (s : Str) (h : '<' ∉ s) :
    ∀ f, tolerantSubAux tokenBody tpl f s = s := by
  induction s with
  | nil => intro f; cases f <;> rfl
  | cons c cs ih =>
    intro f
    cases f with
    | zero => rfl
    | succ f =>
      simp only [List.mem_cons, not_or] at h
      have h1 : ¬c = '<' := fun hc => h.1 hc.symm
      simp only [tolerantSubAux, if_neg h1, ih h.2]

theorem biBoldAux_id (b : Backend) (s : Str) (h : '*' ∉ s) :
    ∀ f, biBoldAux b f s = s := by
  induction s with
  | nil => intro f; cases f <;> rfl
  | cons c cs ih =>
    intro f
    cases f with
    | zero => rfl
    | succ f =>
      simp only [List.mem_cons, not_or] at h
      have h1 : ¬c = '*' := fun hc => h.1 hc.symm
      simp only [biBoldAux, if_neg h1, ih h.2]

theorem biItalAux_id (b : Backend) (s : Str) (h : '*' ∉ s) :
    ∀ f prev, biItalAux b f prev s = s := by
  induction s with
  | nil => intro f prev; cases f <;> rfl
  | cons c cs ih =>
    intro f prev
    cases f with
    | zero => rfl
    | succ f =>
      simp only [List.mem_cons, not_or] at h
      have h1 : ¬(c = '*' ∧ prev = false) := fun hc => h.1 hc.1.symm
      simp only [biItalAux, if_neg h1, ih h.2]

theorem translateBoldItalic_id (b : Backend) (s : Str) (h : '*' ∉ s) :
    translateBoldItalic b s = s := by
  unfold translateBoldItalic
  rw [biBoldAux_id b s h]
  exact biItalAux_id b s h _ _

theorem fixBoldAux_id (s : Str) (h : '*' ∉ s) :
    ∀ f, fixBoldAux f s = s := by
  induction s with
  | nil => intro f; cases f <;> rfl
  | cons c cs ih =>
    intro f
    cases f with
    | zero => rfl
    | succ f =>
      simp only [List.mem_cons, not_or] at h
      have h1 : ¬c = '*' := fun hc => h.1 hc.symm
      simp only [fixBoldAux, if_neg h1, ih h.2]

theorem fixItalAux_id (s : Str) (h : '*' ∉ s) :
    ∀ f prev, fixItalAux f prev s = s := by
  induction s with
  | nil => intro f prev; cases f <;> rfl
  | cons c cs ih =>
    intro f prev
    cases f with
    | zero => rfl
    | succ f =>
      simp only [List.mem_cons, not_or] at h
      have h1 : ¬(c = '*' ∧ prev = false) := fun hc => h.1 hc.1.symm
      simp only [fixItalAux, if_neg h1, ih h.2]

theorem fixMarkdownSpacing_id (s : Str) (h : '*' ∉ s) :
    fixMarkdownSpacing s = s := by
  unfold fixMarkdownSpacing
  rw [fixBoldAux_id s h]
  exact fixItalAux_id s h _ _

end MdTranslator

namespace MdTranslator

/-! ## Line-processing lemmas -/

theorem defTry1_eq_none (line : Str) (h : '[' ∉ line) : defTry1 line = none := by
  cases line with
  | nil => rfl
  | cons c cs =>
    simp only [List.mem_cons, not_or] at h
    unfold defTry1
    split
    · rename_i heq
      rw [List.cons.injEq] at heq
      exact absurd heq.1 (fun e => h.1 e.symm)
    · rfl

theorem defTry2_eq_none (line : Str) (h : ':' ∉ line) : defTry2 line = none := by
  simp only [defTry2]
  split
  · split
    · rfl
    · split
      · rename_i r heq
        exfalso
        have h3 : ':' ∈ ((line.drop "<<FOOTNOTE_REF_".data.length).drop
            ((line.drop "<<FOOTNOTE_REF_".data.length).takeWhile Char.isDigit).length) := by
          rw [heq]; simp
        exact h (List.drop_subset _ _ (List.drop_subset _ _ h3))
      · rfl
  · rfl

theorem defLineMatch_eq_none (line : Str) (h2 : '[' ∉ line) (h3 : ':' ∉ line) :
    defLineMatch line = none := by
  unfold defLineMatch
  rw [defTry1_eq_none line h2, defTry2_eq_none line h3]

theorem processLine_id (b : Backend) (hb : ∀ s, translateTextFragment b s = s)
    (line : Str) (h1 : '*' ∉ line) (h2 : '[' ∉ line) (h3 : ':' ∉ line) :
    processLine b line = line := by
  unfold processLine
  by_cases hs : skipLine line = true
  · simp [hs]
  · simp only [hs, Bool.false_eq_true, if_false]
    rw [defLineMatch_eq_none line h2 h3]
    simp only
    rw [translateBoldItalic_id b line h1, fixMarkdownSpacing_id line h1, hb]

/-! ## Restoration with empty tables -/

theorem restoreAll_empty (b : Backend) (doc c : Str) :
    restoreAll b ⟨doc, [], [], [], [], [], none⟩ c = some c := rfl

/-- The whole pipeline is the identity on documents free of the trigger
characters, for every backend whose adapter acts as the identity. -/
theorem processFile_id (b : Backend) (hb : ∀ s, translateTextFragment b s = s)
    (doc : Str)
    (h : ∀ c ∈ doc, c ≠ '*' ∧ c ≠ '`' ∧ c ≠ '[' ∧ c ≠ ':')
    (hy : "---".data.isPrefixOf doc = false) :
    processFile b doc = some doc := by
  have hstar : '*' ∉ doc := fun hm => (h _ hm).1 rfl
  have htick : '`' ∉ doc := fun hm => (h _ hm).2.1 rfl
  have hbr : '[' ∉ doc := fun hm => (h _ hm).2.2.1 rfl
  have hco : ':' ∉ doc := fun hm => (h _ hm).2.2.2 rfl
  have hext : extractAll doc = ⟨doc, [], [], [], [], [], none⟩ := by
    unfold extractAll
    simp only [extractCalloutBlocks_id doc hco, extractCodeBlocks_id doc htick,
      extractMdImagesAndLinks_id doc hbr, extractInlineCode_id doc htick,
      extractFootnoteRefs_id doc hbr, extractYamlFrontmatter_id doc hy]
  have hmap : (splitNl doc).map (processLine b) = splitNl doc := by
    have hcong : ∀ l ∈ splitNl doc, processLine b l = l := by
      intro l hl
      exact processLine_id b hb l
        (fun hm => hstar (mem_of_mem_splitNl doc l hl hm))
        (fun hm => hbr (mem_of_mem_splitNl doc l hl hm))
        (fun hm => hco (mem_of_mem_splitNl doc l hl hm))
    calc (splitNl doc).map (processLine b) = (splitNl doc).map id :=
          List.map_congr_left hcong
      _ = splitNl doc := List.map_id _
  unfold processFile
  rw [hext]
  simp only
  rw [hmap, joinNl_splitNl, restoreAll_empty]
  simp only [Option.map_some']
  rw [fixMarkdownSpacing_id doc hstar]

end MdTranslator

namespace MdTranslator

/-! ## takeWhile / drop / prefix helpers -/

theorem isPrefixOf_cons_false {p : Char} {ps : Str} {c : Char} {cs : Str}
    (h : c ≠ p) : (p :: ps).isPrefixOf (c :: cs) = false := by
  simp [List.isPrefixOf, beq_iff_eq]
  intro hc
  exact absurd hc.symm h

theorem drop_len_append (x z : Str) : (x ++ z).drop x.length = z :=
  List.drop_left x z

theorem takeWhile_all_append (p : Char → Bool) (x z : Str)
    (hx : ∀ c ∈ x, p c = true) :
    (x ++ z).takeWhile p = x ++ z.takeWhile p := by
  induction x with
  | nil => simp
  | cons c cs ih =>
    have hc : p c = true := hx c (List.mem_cons_self c cs)
    simp only [List.cons_append, List.takeWhile_cons, hc, if_true]
    rw [ih (fun d hd => hx d (List.mem_cons_of_mem c hd))]

theorem takeWhile_cons_false (p : Char → Bool) (d : Char) (y : Str)
    (hd : p d = false) : (d :: y).takeWhile p = [] := by
  simp [List.takeWhile_cons, hd]

theorem isPrefixOf_append_self (p y : Str) : p.isPrefixOf (p ++ y) = true := by
  induction p with
  | nil => simp [List.isPrefixOf]
  | cons c cs ih => simp [List.isPrefixOf, ih]

theorem hasSub_eq_false (p0 : Char) (pt : Str) (s : Str) (h : p0 ∉ s) :
    hasSub (p0 :: pt) s = false := by
  induction s with
  | nil => rfl
  | cons c cs ih =>
    simp only [List.mem_cons, not_or] at h
    have h1 : c ≠ p0 := fun e => h.1 e.symm
    simp only [hasSub, isPrefixOf_cons_false h1, Bool.false_or, ih h.2]

theorem findSub_at (p0 : Char) (pt : Str) (x y : Str) (hx : p0 ∉ x) :
    findSub (p0 :: pt) (x ++ ((p0 :: pt) ++ y)) = some (x, y) := by
  induction x with
  | nil =>
    show findSub (p0 :: pt) ((p0 :: pt) ++ y) = some ([], y)
    have h1 := isPrefixOf_append_self (p0 :: pt) y
    have h2 := drop_len_append (p0 :: pt) y
    simp only [List.cons_append] at h1 h2
    simp only [List.cons_append, findSub, List.append_eq, h1, if_true, h2]
  | cons c cs ih =>
    simp only [List.mem_cons, not_or] at hx
    have h1 : c ≠ p0 := fun e => hx.1 e.symm
    have ih2 := ih hx.2
    simp only [List.cons_append, List.append_eq] at ih2 ⊢
    simp only [findSub, isPrefixOf_cons_false h1, Bool.false_eq_true, if_false, ih2]
    rfl

/-! ## Fuel-addition skip lemmas: scanning trigger-free text emits it
verbatim and consumes exactly its length in fuel. -/

theorem extractCodeBlocksAux_skip :
    ∀ (x : Str), '`' ∉ x → ∀ f s acc,
      extractCodeBlocksAux (x.length + f) (x ++ s) acc =
        (x ++ (extractCodeBlocksAux f s acc).1, (extractCodeBlocksAux f s acc).2) := by
  intro x
  induction x with
  | nil => intro _ f s acc; simp
  | cons c x' ih =>
    intro hx f s acc
    simp only [List.mem_cons, not_or] at hx
    have h1 : ¬c = '`' := fun hc => hx.1 hc.symm
    have hlen : (c :: x').length + f = (x'.length + f) + 1 := by
      simp only [List.length_cons]; omega
    rw [hlen]
    simp only [List.cons_append, List.append_eq, extractCodeBlocksAux, if_neg h1,
      ih hx.2 f s acc]

theorem extractFootnoteRefsAux_skip :
    ∀ (x : Str), '[' ∉ x → ∀ f s acc,
      extractFootnoteRefsAux (x.length + f) (x ++ s) acc =
        (x ++ (extractFootnoteRefsAux f s acc).1, (extractFootnoteRefsAux f s acc).2) := by
  intro x
  induction x with
  | nil => intro _ f s acc; simp
  | cons c x' ih =>
    intro hx f s acc
    simp only [List.mem_cons, not_or] at hx
    have h1 : ¬c = '[' := fun hc => hx.1 hc.symm
    have hlen : (c :: x').length + f = (x'.length + f) + 1 := by
      simp only [List.length_cons]; omega
    rw [hlen]
    simp only [List.cons_append, List.append_eq, extractFootnoteRefsAux, if_neg h1,
      ih hx.2 f s acc]

theorem strReplaceAux_skip (p0 : Char) (pt rep : Str) :
    ∀ (x : Str), p0 ∉ x → ∀ f s,
      strReplaceAux (p0 :: pt) rep (x.length + f) (x ++ s) =
        x ++ strReplaceAux (p0 :: pt) rep f s := by
  intro x
  induction x with
  | nil => intro _ f s; simp
  | cons c x' ih =>
    intro hx f s
    simp only [List.mem_cons, not_or] at hx
    have h1 : c ≠ p0 := fun e => hx.1 e.symm
    have hlen : (c :: x').length + f = (x'.length + f) + 1 := by
      simp only [List.length_cons]; omega
    rw [hlen]
    simp only [List.cons_append, List.append_eq, strReplaceAux,
      isPrefixOf_cons_false h1, Bool.false_eq_true, if_false, ih hx.2 f s]

theorem tolerantSubAux_skip (tokenBody : Str) (tpl : Template) :
    ∀ (x : Str), '<' ∉ x → ∀ f s,
      tolerantSubAux tokenBody tpl (x.length + f) (x ++ s) =
        x ++ tolerantSubAux tokenBody tpl f s := by
  intro x
  induction x with
  | nil => intro _ f s; simp
  | cons c x' ih =>
    intro hx f s
    simp only [List.mem_cons, not_or] at hx
    have h1 : ¬c = '<' := fun hc => hx.1 hc.symm
    have hlen : (c :: x').length + f = (x'.length + f) + 1 := by
      simp only [List.length_cons]; omega
    rw [hlen]
    simp only [List.cons_append, List.append_eq, tolerantSubAux, if_neg h1,
      ih hx.2 f s]

/-! ## Match-site lemmas -/

theorem strReplace_hit (p0 : Char) (pt rep x y : Str) (hx : p0 ∉ x) (hy : p0 ∉ y) :
    strReplace (p0 :: pt) rep (x ++ ((p0 :: pt) ++ y)) = x ++ (rep ++ y) := by
  unfold strReplace
  have hlen : (x ++ ((p0 :: pt) ++ y)).length + 1 =
      x.length + (((p0 :: pt) ++ y).length + 1) := by
    simp [List.length_append]; omega
  rw [hlen, strReplaceAux_skip p0 pt rep x hx]
  congr 1
  have h1 := isPrefixOf_append_self (p0 :: pt) y
  have h2 := drop_len_append (p0 :: pt) y
  simp only [List.cons_append] at h1 h2
  show strReplaceAux (p0 :: pt) rep ((p0 :: (pt ++ y)).length + 1) (p0 :: (pt ++ y)) =
    rep ++ y
  simp only [strReplaceAux, h1, if_true, h2]
  congr 1
  exact strReplaceAux_id _ rep y (hasSub_eq_false p0 pt y hy) _

end MdTranslator

namespace MdTranslator

/-! ## Code-block extraction on a document with one fenced block -/

theorem cbTry_hit (body post : Str) (h2 : '`' ∉ body) :
    cbTry ('`' :: '`' :: '`' :: (body ++ '`' :: '`' :: '`' :: post)) =
      some ('`' :: '`' :: '`' :: (body ++ ['`', '`', '`']), post) := by
  have hfind : findSub ['`', '`', '`'] (body ++ '`' :: '`' :: '`' :: post) =
      some (body, post) := by
    have h := findSub_at '`' ['`', '`'] body post h2
    simpa using h
  simp only [cbTry, hfind]

theorem extractCodeBlocks_single (pre body post : Str)
    (h1 : '`' ∉ pre) (h2 : '`' ∉ body) (h3 : '`' ∉ post) :
    extractCodeBlocks (pre ++ ('`' :: '`' :: '`' :: (body ++ '`' :: '`' :: '`' :: post)))
      = (pre ++ (phToken "CODEBLOCK".data 0 ++ post),
         ['`' :: '`' :: '`' :: (body ++ ['`', '`', '`'])]) := by
  unfold extractCodeBlocks
  have hlen : (pre ++ ('`' :: '`' :: '`' :: (body ++ '`' :: '`' :: '`' :: post))).length + 1 =
      pre.length + (('`' :: '`' :: '`' :: (body ++ '`' :: '`' :: '`' :: post)).length + 1) := by
    simp [List.length_append]
    omega
  rw [hlen, extractCodeBlocksAux_skip pre h1]
  have hstep : extractCodeBlocksAux
      (('`' :: '`' :: '`' :: (body ++ '`' :: '`' :: '`' :: post)).length + 1)
      ('`' :: '`' :: '`' :: (body ++ '`' :: '`' :: '`' :: post)) [] =
      (phToken "CODEBLOCK".data 0 ++ post, ['`' :: '`' :: '`' :: (body ++ ['`', '`', '`'])]) := by
    rw [extractCodeBlocksAux]
    rw [if_pos rfl, cbTry_hit body post h2]
    simp only [extractCodeBlocksAux_id post h3, List.nil_append, List.length_nil]
  rw [hstep]

/-! ## joinNl over an append -/

theorem joinNl_append (A B : List Str) (hA : A ≠ []) (hB : B ≠ []) :
    joinNl (A ++ B) = joinNl A ++ '\n' :: joinNl B := by
  induction A with
  | nil => exact absurd rfl hA
  | cons l ls ih =>
    cases ls with
    | nil =>
      rw [show ([l] : List Str) ++ B = l :: B from rfl, joinNl_cons l B hB]
      rfl
    | cons l2 ls2 =>
      rw [show (l :: l2 :: ls2) ++ B = l :: ((l2 :: ls2) ++ B) from rfl,
          joinNl_cons _ _ (by simp), joinNl_cons _ _ (by simp), ih (by simp)]
      simp

/-- The pipeline is the identity on a document consisting of plain text
around one fenced code block on its own lines, and in particular preserves
the block byte-for-byte, for every backend whose adapter acts as the
identity. -/
theorem processFile_codeBlock (b : Backend) (hb : ∀ s, translateTextFragment b s = s)
    (pre body post : Str)
    (hpre : ∀ c ∈ pre, c ≠ '*' ∧ c ≠ '`' ∧ c ≠ '[' ∧ c ≠ ':' ∧ c ≠ '-' ∧ c ≠ '<')
    (hpost : ∀ c ∈ post, c ≠ '*' ∧ c ≠ '`' ∧ c ≠ '[' ∧ c ≠ ':' ∧ c ≠ '-' ∧ c ≠ '<')
    (hbody : ∀ c ∈ body, c ≠ '`' ∧ c ≠ '*' ∧ c ≠ ':') :
    processFile b (pre ++ '\n' :: ('`' :: '`' :: '`' :: (body ++ '`' :: '`' :: '`' :: ('\n' :: post))))
      = some (pre ++ '\n' :: ('`' :: '`' :: '`' :: (body ++ '`' :: '`' :: '`' :: ('\n' :: post)))) := by
  have hpre1 : '`' ∉ pre := fun hm => (hpre _ hm).2.1 rfl
  have hpost1 : '`' ∉ post := fun hm => (hpost _ hm).2.1 rfl
  have hbody1 : '`' ∉ body := fun hm => (hbody _ hm).1 rfl
  have hbody2 : '*' ∉ body := fun hm => (hbody _ hm).2.1 rfl
  have hbody3 : ':' ∉ body := fun hm => (hbody _ hm).2.2 rfl
  set tok : Str := phToken "CODEBLOCK".data 0 with htok
  set blk : Str := '`' :: '`' :: '`' :: (body ++ ['`', '`', '`']) with hblk
  set doc : Str :=
    pre ++ '\n' :: ('`' :: '`' :: '`' :: (body ++ '`' :: '`' :: '`' :: ('\n' :: post)))
    with hdoc
  set ct : Str := pre ++ '\n' :: (tok ++ '\n' :: post) with hct
  have hmemdoc : ∀ c ∈ doc, c ∈ pre ∨ c ∈ body ∨ c ∈ post ∨ c = '\n' ∨ c = '`' := by
    intro c hm
    rw [hdoc] at hm
    simp only [List.mem_append, List.mem_cons] at hm
    tauto
  have hmemct : ∀ c ∈ ct, c ∈ pre ∨ c ∈ post ∨ c = '\n' ∨ c ∈ tok := by
    intro c hm
    rw [hct] at hm
    simp only [List.mem_append, List.mem_cons] at hm
    tauto
  have hco : ':' ∉ doc := by
    intro hm
    rcases hmemdoc ':' hm with h | h | h | h | h
    · exact (hpre _ h).2.2.2.1 rfl
    · exact hbody3 h
    · exact (hpost _ h).2.2.2.1 rfl
    · exact absurd h (by decide)
    · exact absurd h (by decide)
  have hct_br : '[' ∉ ct := by
    intro hm
    rcases hmemct '[' hm with h | h | h | h
    · exact (hpre _ h).2.2.1 rfl
    · exact (hpost _ h).2.2.1 rfl
    · exact absurd h (by decide)
    · rw [htok] at h; exact absurd h (by decide)
  have hct_tick : '`' ∉ ct := by
    intro hm
    rcases hmemct '`' hm with h | h | h | h
    · exact hpre1 h
    · exact hpost1 h
    · exact absurd h (by decide)
    · rw [htok] at h; exact absurd h (by decide)
  have hyaml : "---".data.isPrefixOf ct = false := by
    rw [hct, show "---".data = ['-', '-', '-'] from rfl]
    cases hp : pre with
    | nil =>
      show (['-', '-', '-'] : Str).isPrefixOf ('\n' :: (tok ++ '\n' :: post)) = false
      exact isPrefixOf_cons_false (by decide)
    | cons c cs =>
      have hc : c ≠ '-' := (hpre c (by rw [hp]; exact List.mem_cons_self c cs)).2.2.2.2.1
      rw [List.cons_append]
      exact isPrefixOf_cons_false hc
  have e2 : extractCodeBlocks doc = (ct, [blk]) := by
    have hx : '`' ∉ pre ++ ['\n'] := by
      intro hm
      rcases List.mem_append.mp hm with h | h
      · exact hpre1 h
      · simp at h
    have hy : '`' ∉ '\n' :: post := by
      intro hm
      rcases List.mem_cons.mp hm with h | h
      · exact absurd h (by decide)
      · exact hpost1 h
    have h := extractCodeBlocks_single (pre ++ ['\n']) body ('\n' :: post) hx hbody1 hy
    rw [hdoc, hct, htok, hblk]
    simpa only [List.append_assoc, List.singleton_append] using h
  have hext : extractAll doc = ⟨ct, [], [blk], [], [], [], none⟩ := by
    unfold extractAll
    simp only [extractCalloutBlocks_id doc hco, e2,
      extractMdImagesAndLinks_id ct hct_br, extractInlineCode_id ct hct_tick,
      extractFootnoteRefs_id ct hct_br, extractYamlFrontmatter_id ct hyaml]
  have hsplit : splitNl ct = splitNl pre ++ ([tok] ++ splitNl post) := by
    rw [hct, splitNl_append, splitNl_append, splitNl_no_nl tok (by rw [htok]; decide)]
  have hlinetok : processLine b tok = tok := by
    unfold processLine
    rw [if_pos (by rw [htok]; decide)]
  have hmap : (splitNl ct).map (processLine b) = splitNl ct := by
    rw [hsplit, List.map_append, List.map_append]
    have m1 : (splitNl pre).map (processLine b) = splitNl pre := by
      calc (splitNl pre).map (processLine b) = (splitNl pre).map id := by
            apply List.map_congr_left
            intro l hl
            exact processLine_id b hb l
              (fun hm => (hpre _ (mem_of_mem_splitNl pre l hl hm)).1 rfl)
              (fun hm => (hpre _ (mem_of_mem_splitNl pre l hl hm)).2.2.1 rfl)
              (fun hm => (hpre _ (mem_of_mem_splitNl pre l hl hm)).2.2.2.1 rfl)
        _ = splitNl pre := List.map_id _
    have m3 : (splitNl post).map (processLine b) = splitNl post := by
      calc (splitNl post).map (processLine b) = (splitNl post).map id := by
            apply List.map_congr_left
            intro l hl
            exact processLine_id b hb l
              (fun hm => (hpost _ (mem_of_mem_splitNl post l hl hm)).1 rfl)
              (fun hm => (hpost _ (mem_of_mem_splitNl post l hl hm)).2.2.1 rfl)
              (fun hm => (hpost _ (mem_of_mem_splitNl post l hl hm)).2.2.2.1 rfl)
        _ = splitNl post := List.map_id _
    rw [m1, m3]
    simp only [List.map_cons, List.map_nil, hlinetok]
  have hrest : restoreAll b ⟨ct, [], [blk], [], [], [], none⟩ ct =
      some (pre ++ '\n' :: (blk ++ '\n' :: post)) := by
    show some (strReplace tok blk ct) = some (pre ++ '\n' :: (blk ++ '\n' :: post))
    refine congrArg some ?_
    have hshape : ct = (pre ++ ['\n']) ++ (tok ++ '\n' :: post) := by
      rw [hct]; simp [List.append_assoc]
    have htok2 : tok = '<' :: ('<' :: ("CODEBLOCK".data ++ '_' :: (natStr 0 ++ ['>', '>']))) := by
      rw [htok]; rfl
    have hx : '<' ∉ pre ++ ['\n'] := by
      intro hm
      rcases List.mem_append.mp hm with h | h
      · exact (hpre _ h).2.2.2.2.2 rfl
      · simp at h
    have hy : '<' ∉ '\n' :: post := by
      intro hm
      rcases List.mem_cons.mp hm with h | h
      · exact absurd h (by decide)
      · exact (hpost _ h).2.2.2.2.2 rfl
    rw [hshape, htok2, strReplace_hit '<' _ blk _ _ hx hy]
    simp [List.append_assoc]
  have hfixfinal : fixMarkdownSpacing (pre ++ '\n' :: (blk ++ '\n' :: post)) =
      pre ++ '\n' :: (blk ++ '\n' :: post) := by
    apply fixMarkdownSpacing_id
    intro hm
    have hmm : '*' ∈ pre ∨ '*' ∈ body ∨ '*' ∈ post ∨ '*' = '\n' ∨ '*' = '`' := by
      rw [hblk] at hm
      simp only [List.mem_append, List.mem_cons] at hm
      tauto
    rcases hmm with h | h | h | h | h
    · exact (hpre _ h).1 rfl
    · exact hbody2 h
    · exact (hpost _ h).1 rfl
    · exact absurd h (by decide)
    · exact absurd h (by decide)
  have hdocshape : pre ++ '\n' :: (blk ++ '\n' :: post) = doc := by
    rw [hblk, hdoc]
    simp [List.append_assoc]
  unfold processFile
  rw [hext]
  simp only
  rw [hmap, joinNl_splitNl, hrest]
  simp only [Option.map_some']
  rw [hfixfinal, hdocshape]

end MdTranslator

namespace MdTranslator

/-! ## Footnote-reference extraction on a shaped document -/

theorem fnTry_hit (id rest : Str) (h2 : ']' ∉ id) (hne : id ≠ []) :
    fnTry ('[' :: '^' :: (id ++ ']' :: rest)) =
      some ('[' :: '^' :: (id ++ [']']), rest) := by
  have htw : (id ++ ']' :: rest).takeWhile (fun c => c ≠ ']') = id := by
    rw [takeWhile_all_append _ id (']' :: rest)
        (fun c hc => by simp; exact fun e => h2 (e ▸ hc)),
      takeWhile_cons_false _ ']' rest (by simp)]
    simp
  have hie : id.isEmpty = false := by
    cases id with
    | nil => exact absurd rfl hne
    | cons a as => rfl
  simp only [fnTry, htw, hie, Bool.false_eq_true, if_false, drop_len_append]

theorem extractFootnoteRefs_single (pre id rest : Str)
    (h1 : '[' ∉ pre) (h2 : ']' ∉ id) (hne : id ≠ []) (h3 : '[' ∉ rest) :
    extractFootnoteRefs (pre ++ ('[' :: '^' :: (id ++ ']' :: rest))) =
      if colonFollows rest = true
      then (pre ++ ('[' :: '^' :: (id ++ ']' :: rest)), [])
      else (pre ++ (phToken "FOOTNOTE_REF".data 0 ++ rest),
            ['[' :: '^' :: (id ++ [']'])]) := by
  unfold extractFootnoteRefs
  have hlen : (pre ++ ('[' :: '^' :: (id ++ ']' :: rest))).length + 1 =
      pre.length + (('[' :: '^' :: (id ++ ']' :: rest)).length + 1) := by
    simp [List.length_append]; omega
  rw [hlen, extractFootnoteRefsAux_skip pre h1]
  rw [extractFootnoteRefsAux]
  rw [if_pos rfl, fnTry_hit id rest h2 hne]
  by_cases hcf : colonFollows rest = true
  · rw [if_pos hcf]
    simp only [extractFootnoteRefsAux_id rest h3, hcf, if_true]
    simp [List.append_assoc]
  · rw [if_neg hcf]
    simp only [extractFootnoteRefsAux_id rest h3, hcf, Bool.false_eq_true, if_false,
      List.nil_append, List.length_nil]

/-! ## Tolerant placeholder replacement lemmas -/

theorem ciMatch_append (pat tok z : Str)
    (h : tok.map Char.toLower = pat.map Char.toLower) :
    ciMatch pat (tok ++ z) = some (tok, z) := by
  induction pat generalizing tok with
  | nil =>
    have : tok = [] := by simpa using h
    subst this
    simp [ciMatch]
  | cons p ps ih =>
    cases tok with
    | nil => simp at h
    | cons c cs =>
      simp only [List.map_cons, List.cons.injEq] at h
      simp only [List.cons_append, ciMatch, h.1, if_pos, List.append_eq, ih cs h.2]
      rfl

theorem tolTry_hit (tokenBody w1 : Str) (t0 : Char) (tk w2 y : Str)
    (hw1 : ∀ c ∈ w1, isWs c = true) (hw2 : ∀ c ∈ w2, isWs c = true)
    (ht0 : isWs t0 = false)
    (hmap : (t0 :: tk).map Char.toLower = tokenBody.map Char.toLower) :
    tolTry tokenBody ('<' :: '<' :: (w1 ++ ((t0 :: tk) ++ (w2 ++ '>' :: '>' :: y)))) =
      some ('<' :: '<' :: (w1 ++ ((t0 :: tk) ++ (w2 ++ ['>', '>']))), y) := by
  have htw1 : (w1 ++ ((t0 :: tk) ++ (w2 ++ '>' :: '>' :: y))).takeWhile isWs = w1 := by
    rw [takeWhile_all_append isWs w1 _ hw1]
    rw [List.cons_append, takeWhile_cons_false isWs t0 _ ht0]
    simp
  have htw2 : (w2 ++ '>' :: '>' :: y).takeWhile isWs = w2 := by
    rw [takeWhile_all_append isWs w2 _ hw2, takeWhile_cons_false isWs '>' _ (by decide)]
    simp
  simp only [tolTry, htw1, drop_len_append, ciMatch_append tokenBody (t0 :: tk) _ hmap,
    htw2]

theorem tolerantSub_hit (tokenBody : Str) (tpl : Template) (x w1 : Str) (t0 : Char)
    (tk w2 y : Str)
    (hx : '<' ∉ x) (hy : '<' ∉ y)
    (hw1 : ∀ c ∈ w1, isWs c = true) (hw2 : ∀ c ∈ w2, isWs c = true)
    (ht0 : isWs t0 = false)
    (hmap : (t0 :: tk).map Char.toLower = tokenBody.map Char.toLower) :
    tolerantSub tokenBody tpl
        (x ++ '<' :: '<' :: (w1 ++ ((t0 :: tk) ++ (w2 ++ '>' :: '>' :: y)))) =
      x ++ (fillTemplate ('<' :: '<' :: (w1 ++ ((t0 :: tk) ++ (w2 ++ ['>', '>'])))) tpl
        ++ y) := by
  unfold tolerantSub
  have hlen : (x ++ '<' :: '<' :: (w1 ++ ((t0 :: tk) ++ (w2 ++ '>' :: '>' :: y)))).length + 1 =
      x.length + (('<' :: '<' :: (w1 ++ ((t0 :: tk) ++ (w2 ++ '>' :: '>' :: y)))).length + 1) := by
    simp [List.length_append]; omega
  rw [hlen, tolerantSubAux_skip tokenBody tpl x hx]
  rw [tolerantSubAux]
  rw [if_pos rfl, tolTry_hit tokenBody w1 t0 tk w2 y hw1 hw2 ht0 hmap]
  simp only [tolerantSubAux_id tokenBody tpl y hy]

/-- Filling a template made only of literals yields the original string,
independently of the match. -/
theorem fillTemplate_lits (m s : Str) : fillTemplate m (s.map TItem.lit) = s := by
  induction s with
  | nil => rfl
  | cons c cs ih => simp only [List.map_cons, fillTemplate, ih]

/-- Template parsing of a backslash-free string succeeds and yields the
string itself as literals, with exactly one fuel unit per character. -/
theorem parseTemplateAux_lits :
    ∀ (x : Str), '\\' ∉ x → ∀ f,
      parseTemplateAux (x.length + (f + 1)) x = some (x.map TItem.lit) := by
  intro x
  induction x with
  | nil => intro _ f; rfl
  | cons c cs ih =>
    intro hx f
    simp only [List.mem_cons, not_or] at hx
    have h1 : ¬c = '\\' := fun hc => hx.1 hc.symm
    have hlen : (c :: cs).length + (f + 1) = (cs.length + (f + 1)) + 1 := by
      simp only [List.length_cons]; omega
    rw [hlen]
    simp only [parseTemplateAux, if_neg h1, ih hx.2 f, Option.map_some', List.map_cons]

/-- `parseTemplate` on a backslash-free string: all literals, no error. -/
theorem parseTemplate_lits (s : Str) (h : '\\' ∉ s) :
    parseTemplate s = some (s.map TItem.lit) := by
  unfold parseTemplate
  exact parseTemplateAux_lits s h 0

/-! ## Footnote-definition line parsing -/

theorem defTry1_hit (id r : Str) (h2 : ']' ∉ id) (hne : id ≠ []) :
    defTry1 ('[' :: '^' :: (id ++ ']' :: ':' :: r)) =
      some ('[' :: '^' :: (id ++ [']', ':']), r) := by
  have htw : (id ++ ']' :: ':' :: r).takeWhile (fun c => c ≠ ']') = id := by
    rw [takeWhile_all_append _ id (']' :: ':' :: r)
        (fun c hc => by simp; exact fun e => h2 (e ▸ hc)),
      takeWhile_cons_false _ ']' _ (by simp)]
    simp
  have hie : id.isEmpty = false := by
    cases id with
    | nil => exact absurd rfl hne
    | cons a as => rfl
  simp only [defTry1, htw, hie, Bool.false_eq_true, if_false, drop_len_append]

theorem defTry1_head_ne (c : Char) (cs : Str) (h : c ≠ '[') :
    defTry1 (c :: cs) = none := by
  unfold defTry1
  split
  · rename_i heq
    rw [List.cons.injEq] at heq
    exact absurd heq.1 h
  · rfl

theorem defTry2_hit (ds r : Str) (hds : ∀ c ∈ ds, c.isDigit = true) (hne : ds ≠ []) :
    defTry2 ("<<FOOTNOTE_REF_".data ++ (ds ++ '>' :: '>' :: ':' :: r)) =
      some ("<<FOOTNOTE_REF_".data ++ ds ++ ['>', '>', ':'], r) := by
  have hp := isPrefixOf_append_self "<<FOOTNOTE_REF_".data (ds ++ '>' :: '>' :: ':' :: r)
  have htw : (ds ++ '>' :: '>' :: ':' :: r).takeWhile Char.isDigit = ds := by
    rw [takeWhile_all_append _ ds _ hds, takeWhile_cons_false _ '>' _ (by decide)]
    simp
  have hie : ds.isEmpty = false := by
    cases ds with
    | nil => exact absurd rfl hne
    | cons a as => rfl
  simp only [defTry2, hp, if_pos, drop_len_append, htw, hie, Bool.false_eq_true,
    if_false]

/-! ## strip and skipLine on lines with a non-whitespace head -/

theorem strip_cons_not_ws (c : Char) (hc : isWs c = false) (xs : Str) :
    strip (c :: xs) = c :: stripR xs := by
  unfold strip stripL stripR
  rw [List.dropWhile_cons]
  simp only [hc, Bool.false_eq_true, if_false]
  rw [List.reverse_cons, List.dropWhile_append]
  by_cases he : ((List.reverse xs).dropWhile isWs).isEmpty
  · simp only [he, if_true]
    rw [List.isEmpty_iff] at he
    rw [he]
    simp [List.dropWhile_cons, hc]
  · rw [Bool.not_eq_true] at he
    rw [he]
    simp only [Bool.false_eq_true, if_false, List.reverse_append, List.reverse_cons,
      List.reverse_nil, List.nil_append, List.singleton_append]

theorem skipLine_head_false (c : Char) (hc : isWs c = false) (hlt : c ≠ '<') (xs : Str) :
    skipLine (c :: xs) = false := by
  unfold skipLine
  rw [strip_cons_not_ws c hc xs]
  have h1 : "<<".data.isPrefixOf (c :: stripR xs) = false :=
    isPrefixOf_cons_false hlt
  simp [h1]

theorem takeWhile_eq_self (p : Char → Bool) (x : Str) (hx : ∀ c ∈ x, p c = true) :
    x.takeWhile p = x := by
  have := takeWhile_all_append p x [] hx
  simpa using this

/-- Footnote-definition lines of the raw `[^id]:` form: the output is the
marker, one space, and the processed stripped body. -/
theorem processLine_fndef (b : Backend) (id body : Str)
    (h2 : ']' ∉ id) (hne : id ≠ []) (hnl : '\n' ∉ body) :
    processLine b ('[' :: '^' :: (id ++ ']' :: ':' :: body)) =
      ('[' :: '^' :: (id ++ [']', ':'])) ++ ' ' ::
        translateTextFragment b (fixMarkdownSpacing (translateBoldItalic b (strip body))) := by
  unfold processLine
  rw [skipLine_head_false '[' (by decide) (by decide)]
  simp only [Bool.false_eq_true, if_false]
  unfold defLineMatch
  rw [defTry1_hit id body h2 hne]
  simp only
  rw [takeWhile_eq_self _ body (fun c hc => by simp; exact fun e => hnl (e ▸ hc))]

/-- Footnote-definition lines of the placeholder `<<FOOTNOTE_REF_n>>:` form. -/
theorem processLine_fndef2 (b : Backend) (ds body : Str)
    (hds : ∀ c ∈ ds, c.isDigit = true) (hne : ds ≠ []) (hnl : '\n' ∉ body)
    (hskip : skipLine ("<<FOOTNOTE_REF_".data ++ (ds ++ '>' :: '>' :: ':' :: body)) = false) :
    processLine b ("<<FOOTNOTE_REF_".data ++ (ds ++ '>' :: '>' :: ':' :: body)) =
      ("<<FOOTNOTE_REF_".data ++ ds ++ ['>', '>', ':']) ++ ' ' ::
        translateTextFragment b (fixMarkdownSpacing (translateBoldItalic b (strip body))) := by
  unfold processLine
  rw [hskip]
  simp only [Bool.false_eq_true, if_false]
  unfold defLineMatch
  rw [show ("<<FOOTNOTE_REF_".data ++ (ds ++ '>' :: '>' :: ':' :: body)) =
      '<' :: ('<' :: ("FOOTNOTE_REF_".data ++ (ds ++ '>' :: '>' :: ':' :: body))) from rfl]
  rw [defTry1_head_ne '<' _ (by decide)]
  rw [show ('<' :: ('<' :: ("FOOTNOTE_REF_".data ++ (ds ++ '>' :: '>' :: ':' :: body)))) =
      ("<<FOOTNOTE_REF_".data ++ (ds ++ '>' :: '>' :: ':' :: body)) from rfl]
  rw [defTry2_hit ds body hds hne]
  simp only
  rw [takeWhile_eq_self _ body (fun c hc => by simp; exact fun e => hnl (e ▸ hc))]

end MdTranslator

namespace MdTranslator

theorem isPrefixOf_iff_take (p l : Str) :
    p.isPrefixOf l = true ↔ l.take p.length = p := by
  induction p generalizing l with
  | nil => simp [List.isPrefixOf]
  | cons a as ih =>
    cases l with
    | nil => simp [List.isPrefixOf]
    | cons c cs =>
      simp only [List.isPrefixOf, Bool.and_eq_true, beq_iff_eq, List.length_cons,
        List.take_succ_cons, List.cons.injEq, ih]
      constructor
      · rintro ⟨h1, h2⟩
        exact ⟨h1.symm, h2⟩
      · rintro ⟨h1, h2⟩
        exact ⟨h1.symm, h2⟩

theorem mem_of_mem_dropWhile (p : Char → Bool) (s : Str) {c : Char}
    (h : c ∈ s.dropWhile p) : c ∈ s := by
  induction s with
  | nil => simp at h
  | cons a as ih =>
    rw [List.dropWhile_cons] at h
    by_cases hp : p a = true
    · rw [if_pos hp] at h
      exact List.mem_cons_of_mem _ (ih h)
    · rw [if_neg hp] at h
      exact h

theorem mem_of_mem_strip (s : Str) {c : Char} (h : c ∈ strip s) : c ∈ s := by
  unfold strip stripR stripL at h
  rw [List.mem_reverse] at h
  have h2 := mem_of_mem_dropWhile isWs _ h
  rw [List.mem_reverse] at h2
  exact mem_of_mem_dropWhile isWs _ h2

end MdTranslator

namespace MdTranslator

/-! # Claims -/

/-! ## C1: round-trip identity of the full pipeline -/

/-- Claim C1 is false as stated: with the identity backend the pipeline
rewrites `** text **` to `**text**` (spacing normalization), and with the
always-failing backend a footnote-definition line loses its interior
whitespace. -/
theorem c1_counterexample :
    processFile idBackend "** text **".data ≠ some "** text **".data ∧
    processFile failBackend "[^a]:  x".data ≠ some "[^a]:  x".data := by
  constructor <;> decide

/-- Claim C1 (amended): with a backend acting as the identity — returning
its input, or raising on every call so the adapter returns the original
text — `process_file` returns the document unchanged, for every document
containing none of the trigger characters `*`, backtick, `[`, `:` and not
starting with `---`.  On general documents exact textual identity fails
because of the emphasis-spacing and footnote-definition normalization
(see the counterexample). -/
theorem c1_identity_roundtrip (doc : Str)
    (h : ∀ c ∈ doc, c ≠ '*' ∧ c ≠ '`' ∧ c ≠ '[' ∧ c ≠ ':')
    (hy : "---".data.isPrefixOf doc = false) :
    processFile idBackend doc = some doc ∧ processFile failBackend doc = some doc :=
  ⟨processFile_id idBackend translateTextFragment_idBackend doc h hy,
   processFile_id failBackend translateTextFragment_failBackend doc h hy⟩

theorem c1_identity_roundtrip_witness :
    ((∀ c ∈ ("hello world\nsecond line\n\nbye".data : Str),
        c ≠ '*' ∧ c ≠ '`' ∧ c ≠ '[' ∧ c ≠ ':') ∧
      "---".data.isPrefixOf "hello world\nsecond line\n\nbye".data = false) ∧
    processFile idBackend "hello world\nsecond line\n\nbye".data =
        some "hello world\nsecond line\n\nbye".data ∧
    processFile failBackend "hello world\nsecond line\n\nbye".data =
        some "hello world\nsecond line\n\nbye".data :=
  ⟨⟨by decide, by decide⟩, c1_identity_roundtrip _ (by decide) (by decide)⟩

/-! ## C2: protected-content invariance -/

/-- Claim C2 is false as stated: the final spacing normalization rewrites
emphasis-like text inside a restored code block even under the identity
backend, and a backend that replies a fixed word destroys the inline-code
placeholder, losing the inline-code bytes. -/
theorem c2_counterexample :
    (processFile idBackend "```\na * b *\n```".data = some "```\na *b*\n```".data ∧
      (extractCodeBlocks "```\na *b*\n```".data).2 ≠
        (extractCodeBlocks "```\na * b *\n```".data).2) ∧
    (processFile helloBackend "x `y` z".data = some "hello".data ∧
      (extractInlineCode "hello".data).2 ≠ (extractInlineCode "x `y` z".data).2) := by
  constructor <;> constructor <;> decide

/-- Claim C2 (amended): for a document made of plain text around one fenced
code block on its own lines (body free of backticks, `*` and `:`), the
pipeline under the identity and always-failing backends returns the
document unchanged, so the code-block bytes are preserved exactly. -/
theorem c2_codeBlock_invariance (pre body post : Str)
    (hpre : ∀ c ∈ pre, c ≠ '*' ∧ c ≠ '`' ∧ c ≠ '[' ∧ c ≠ ':' ∧ c ≠ '-' ∧ c ≠ '<')
    (hpost : ∀ c ∈ post, c ≠ '*' ∧ c ≠ '`' ∧ c ≠ '[' ∧ c ≠ ':' ∧ c ≠ '-' ∧ c ≠ '<')
    (hbody : ∀ c ∈ body, c ≠ '`' ∧ c ≠ '*' ∧ c ≠ ':') :
    processFile idBackend
        (pre ++ '\n' :: ('`' :: '`' :: '`' :: (body ++ '`' :: '`' :: '`' :: ('\n' :: post))))
      = some (pre ++ '\n' :: ('`' :: '`' :: '`' :: (body ++ '`' :: '`' :: '`' :: ('\n' :: post)))) ∧
    processFile failBackend
        (pre ++ '\n' :: ('`' :: '`' :: '`' :: (body ++ '`' :: '`' :: '`' :: ('\n' :: post))))
      = some (pre ++ '\n' :: ('`' :: '`' :: '`' :: (body ++ '`' :: '`' :: '`' :: ('\n' :: post)))) ∧
    (processFile idBackend
        (pre ++ '\n' :: ('`' :: '`' :: '`' :: (body ++ '`' :: '`' :: '`' :: ('\n' :: post))))).map
        (fun o => (extractCodeBlocks o).2)
      = some (extractCodeBlocks
          (pre ++ '\n' :: ('`' :: '`' :: '`' :: (body ++ '`' :: '`' :: '`' :: ('\n' :: post))))).2 := by
  have h1 := processFile_codeBlock idBackend translateTextFragment_idBackend
    pre body post hpre hpost hbody
  have h2 := processFile_codeBlock failBackend translateTextFragment_failBackend
    pre body post hpre hpost hbody
  refine ⟨h1, h2, ?_⟩
  rw [h1]
  rfl

theorem c2_codeBlock_invariance_witness :
    ((∀ c ∈ ("text before".data : Str),
        c ≠ '*' ∧ c ≠ '`' ∧ c ≠ '[' ∧ c ≠ ':' ∧ c ≠ '-' ∧ c ≠ '<') ∧
      (∀ c ∈ ("text after".data : Str),
        c ≠ '*' ∧ c ≠ '`' ∧ c ≠ '[' ∧ c ≠ ':' ∧ c ≠ '-' ∧ c ≠ '<') ∧
      (∀ c ∈ ("\ncode x\n".data : Str), c ≠ '`' ∧ c ≠ '*' ∧ c ≠ ':')) ∧
    processFile idBackend
        ("text before".data ++ '\n' ::
          ('`' :: '`' :: '`' :: ("\ncode x\n".data ++ '`' :: '`' :: '`' :: ('\n' :: "text after".data))))
      = some ("text before".data ++ '\n' ::
          ('`' :: '`' :: '`' :: ("\ncode x\n".data ++ '`' :: '`' :: '`' :: ('\n' :: "text after".data)))) :=
  ⟨⟨by decide, by decide, by decide⟩,
   (c2_codeBlock_invariance "text before".data "\ncode x\n".data "text after".data
      (by decide) (by decide) (by decide)).1⟩

/-! ## C3: restoration order -/

/-- Claim C3 is false as stated: the restoration sequence is not the
reversal of the extraction sequence, and the two orders are
observably different — restoring in the code's order corrupts a callout
whose body contains a footnote-reference placeholder literal, while the
exactly-reversed order would not. -/
theorem c3_counterexample :
    restorationOrder ≠ extractionOrder.reverse ∧
    restoreAll idBackend
        ⟨[], [":::\x7b.note\x7d\nhello <<FOOTNOTE_REF_0>>\n:::".data], [], [], [],
          ["[^a]".data], none⟩
        "<<CALLOUT_0>>\nx<<FOOTNOTE_REF_0>> y".data ≠
      extractionOrder.reverse.foldl
        (fun acc k => acc.bind
          (restoreStep idBackend
            ⟨[], [":::\x7b.note\x7d\nhello <<FOOTNOTE_REF_0>>\n:::".data], [], [], [],
              ["[^a]".data], none⟩ k))
        (some "<<CALLOUT_0>>\nx<<FOOTNOTE_REF_0>> y".data) := by
  constructor <;> decide

/-- Claim C3 (amended): extraction stages run in the order callouts →
code blocks → links/images → inline code → footnote refs → YAML, and
restoration stages run in the fixed order YAML → callouts → code blocks →
footnote refs → links/images → inline code, which is not the exact
reversal of the extraction order. -/
theorem c3_restoration_order :
    (∀ doc, extractAll doc = extractionOrder.foldl extractStep (initState doc)) ∧
    (∀ (b : Backend) (st : PState) (c : Str),
      restoreAll b st c =
        restorationOrder.foldl (fun acc k => acc.bind (restoreStep b st k)) (some c)) ∧
    extractionOrder =
      [Kind.callout, Kind.codeblock, Kind.mdlink, Kind.inlineCode, Kind.footnoteRef,
        Kind.yaml] ∧
    restorationOrder =
      [Kind.yaml, Kind.callout, Kind.codeblock, Kind.footnoteRef, Kind.mdlink,
        Kind.inlineCode] :=
  ⟨fun _ => rfl, fun _ _ _ => rfl, rfl, rfl⟩

/-! ## C4: bold before italic -/

/-- Claim C4 is false as stated: on `**bold *and italic* text**` the bold
regex (whose group excludes `*`) does not match at all, so the span is not
translated as one whole bold span; instead the italic pass re-splits the
interior, as the tagging backend makes visible. -/
theorem c4_counterexample :
    translateBoldItalic tagBackend "**bold *and italic* text**".data =
      "**bold *[T]and italic* text**".data ∧
    "**bold *[T]and italic* text**".data ≠
      '*' :: '*' ::
        (translateTextFragment tagBackend "bold *and italic* text".data ++ ['*', '*']) := by
  constructor <;> decide

/-- Claim C4 (amended): the bold pass runs before the italic pass, but a
bold span containing an inner `*` is not matched by the bold regex; for
every backend, on `**bold *and italic* text**` exactly the inner italic
text `and italic` is sent to translation by the italic pass, and the
delimiters are preserved around it. -/
theorem c4_italic_resplit (b : Backend) :
    translateBoldItalic b "**bold *and italic* text**".data =
      "**bold *".data ++ (translateTextFragment b "and italic".data ++ "* text**".data) := rfl

/-! ## C5: footnote-reference discrimination -/

/-- Claim C5 is false as stated: `[^a] :` is not immediately followed by a
colon, yet the scanner leaves it in place (the code strips whitespace
before looking for the colon). -/
theorem c5_counterexample :
    (("[^a] :".data.drop "[^a]".data.length).head? ≠ some ':') ∧
    extractFootnoteRefs "[^a] :".data = ("[^a] :".data, []) := by
  constructor <;> decide

/-- Claim C5 (amended): a footnote reference `[^id]` is replaced by a
placeholder exactly when the following text, after stripping leading
whitespace, does not begin with a colon (references at end of text are
extracted); the spec example extracts the first `[^a]` and keeps `[^a]:`
inline. -/
theorem c5_footnote_discrimination :
    (∀ pre id rest : Str, '[' ∉ pre → ']' ∉ id → id ≠ [] → '[' ∉ rest →
      extractFootnoteRefs (pre ++ ('[' :: '^' :: (id ++ ']' :: rest))) =
        if colonFollows rest = true
        then (pre ++ ('[' :: '^' :: (id ++ ']' :: rest)), [])
        else (pre ++ (phToken "FOOTNOTE_REF".data 0 ++ rest),
              ['[' :: '^' :: (id ++ [']'])])) ∧
    extractFootnoteRefs "See note[^a] and[^a]: this is the note.".data =
      ("See note<<FOOTNOTE_REF_0>> and[^a]: this is the note.".data, ["[^a]".data]) :=
  ⟨fun pre id rest h1 h2 h3 h4 => extractFootnoteRefs_single pre id rest h1 h2 h3 h4,
   by decide⟩

theorem c5_footnote_discrimination_witness :
    ('[' ∉ ("see ".data : Str) ∧ ']' ∉ ("a".data : Str) ∧
      ("a".data : Str) ≠ [] ∧ '[' ∉ (" more".data : Str)) ∧
    extractFootnoteRefs ("see ".data ++ ('[' :: '^' :: ("a".data ++ ']' :: " more".data))) =
      (if colonFollows " more".data = true
       then ("see ".data ++ ('[' :: '^' :: ("a".data ++ ']' :: " more".data)), [])
       else ("see ".data ++ (phToken "FOOTNOTE_REF".data 0 ++ " more".data),
             ['[' :: '^' :: ("a".data ++ [']'])])) :=
  ⟨⟨by decide, by decide, by decide, by decide⟩,
   c5_footnote_discrimination.1 "see ".data "a".data " more".data
     (by decide) (by decide) (by decide) (by decide)⟩

/-! ## C6: adapter failure containment -/

/-- Claim C6: the adapter returns empty/whitespace-only input unchanged
without calling the backend; when the backend raises, the failure is
contained — the adapter returns the original text (and, when a call was
made, emits the diagnostic). -/
theorem c6_adapter_containment (b : Backend) (s : Str) :
    ((strip s).isEmpty = true → translateTextFragmentT b s = (s, [], false)) ∧
    (b s = .err → translateTextFragment b s = s) ∧
    (b s = .err → (strip s).isEmpty = false →
      translateTextFragmentT b s = (s, [s], true)) := by
  refine ⟨fun h => ?_, fun h => ?_, fun h hne => ?_⟩
  · unfold translateTextFragmentT
    rw [if_pos h]
  · unfold translateTextFragment translateTextFragmentT
    by_cases hs : (strip s).isEmpty = true
    · simp [hs]
    · simp [hs, h]
  · unfold translateTextFragmentT
    simp [hne, h]

theorem c6_adapter_containment_witness :
    ((strip "   ".data).isEmpty = true ∧
      translateTextFragmentT failBackend "   ".data = ("   ".data, [], false)) ∧
    (failBackend "abc".data = .err ∧
      translateTextFragment failBackend "abc".data = "abc".data ∧
      translateTextFragmentT failBackend "abc".data = ("abc".data, ["abc".data], true)) :=
  ⟨⟨by decide, (c6_adapter_containment failBackend "   ".data).1 (by decide)⟩,
   ⟨rfl, (c6_adapter_containment failBackend "abc".data).2.1 rfl,
    (c6_adapter_containment failBackend "abc".data).2.2 rfl (by decide)⟩⟩

/-! ## C7: tolerant placeholder matching -/

/-- Claim C7 is false as stated: footnote-reference placeholders are
restored by exact `str.replace`, so a placeholder with injected spaces or
changed case is left behind — while an inline-code placeholder with the
same distortions is restored. -/
theorem c7_counterexample :
    restoreFootnoteRefs ["[^a]".data] "<< FOOTNOTE_REF_0 >>".data =
      "<< FOOTNOTE_REF_0 >>".data ∧
    restoreFootnoteRefs ["[^a]".data] "<<footnote_ref_0>>".data =
      "<<footnote_ref_0>>".data ∧
    restoreInlineCode ["`x`".data] "<< inlinecode_0 >>".data = some "`x`".data := by
  refine ⟨by decide, by decide, by decide⟩

/-- Claim C7 (amended): only the inline-code and markdown-link restorers
match their placeholders tolerantly (whitespace inside the `<<`/`>>`
markers, any letter case), via `re.sub` with `re.IGNORECASE`; their string
replacement is processed as a template, so a backslash-free table entry is
inserted verbatim, while escapes are expanded (`a\nb` inserts a real
newline, `\g<0>` re-inserts the whole matched placeholder) and an invalid
escape such as `\1` raises even when the text holds no placeholder at all
(modelled as `none`).  The footnote-reference, YAML, callout and
code-block restorers use exact `str.replace`: any text without the exact
token — in particular a placeholder with injected whitespace or changed
case — is left unchanged for those kinds. -/
theorem c7_tolerance_split :
    (∀ (code x w1 : Str) (t0 : Char) (tk w2 y : Str),
      '\\' ∉ code → '<' ∉ x → '<' ∉ y →
      (∀ c ∈ w1, isWs c = true) → (∀ c ∈ w2, isWs c = true) →
      isWs t0 = false →
      (t0 :: tk).map Char.toLower = "inlinecode_0".data →
      restoreInlineCode [code]
          (x ++ '<' :: '<' :: (w1 ++ ((t0 :: tk) ++ (w2 ++ '>' :: '>' :: y)))) =
        some (x ++ (code ++ y))) ∧
    (∀ (b : Backend) (l : MdLink) (x w1 : Str) (t0 : Char) (tk w2 y : Str),
      '\\' ∉ mdLinkMarkdown b l → '<' ∉ x → '<' ∉ y →
      (∀ c ∈ w1, isWs c = true) → (∀ c ∈ w2, isWs c = true) →
      isWs t0 = false →
      (t0 :: tk).map Char.toLower = "mdlink_0".data →
      restoreMdImagesAndLinks b [l]
          (x ++ '<' :: '<' :: (w1 ++ ((t0 :: tk) ++ (w2 ++ '>' :: '>' :: y)))) =
        some (x ++ (mdLinkMarkdown b l ++ y))) ∧
    (∀ (r s : Str), hasSub "<<FOOTNOTE_REF_0>>".data s = false →
      restoreFootnoteRefs [r] s = s) ∧
    (∀ (yml s : Str), hasSub "<<YAML>>".data s = false →
      restoreYaml (some yml) s = s) ∧
    (∀ (blk s : Str), hasSub "<<CALLOUT_0>>".data s = false →
      restoreCallouts [blk] s = s) ∧
    (∀ (blk s : Str), hasSub "<<CODEBLOCK_0>>".data s = false →
      restoreCodeBlocks [blk] s = s) ∧
    (restoreInlineCode ["`\\1`".data] "plain text".data = none ∧
      restoreInlineCode ["a\\nb".data] "<<INLINECODE_0>>".data = some "a\nb".data ∧
      restoreInlineCode ["\\g<0>".data] "<< inlinecode_0 >>".data =
        some "<< inlinecode_0 >>".data) := by
  refine ⟨?_, ?_, ?_, ?_, ?_, ?_, by decide, by decide, by decide⟩
  · intro code x w1 t0 tk w2 y hbs hx hy hw1 hw2 ht0 hmap
    have h0 : restoreInlineCode [code]
        (x ++ '<' :: '<' :: (w1 ++ ((t0 :: tk) ++ (w2 ++ '>' :: '>' :: y)))) =
        (parseTemplate code).map (fun tpl =>
          tolerantSub ("INLINECODE_".data ++ natStr 0) tpl
            (x ++ '<' :: '<' :: (w1 ++ ((t0 :: tk) ++ (w2 ++ '>' :: '>' :: y))))) := rfl
    rw [h0, parseTemplate_lits code hbs]
    show some (tolerantSub ("INLINECODE_".data ++ natStr 0) (code.map TItem.lit)
        (x ++ '<' :: '<' :: (w1 ++ ((t0 :: tk) ++ (w2 ++ '>' :: '>' :: y))))) = _
    refine congrArg some ?_
    rw [tolerantSub_hit ("INLINECODE_".data ++ natStr 0) (code.map TItem.lit)
        x w1 t0 tk w2 y hx hy hw1 hw2 ht0 (by rw [hmap]; decide)]
    rw [fillTemplate_lits]
  · intro b l x w1 t0 tk w2 y hbs hx hy hw1 hw2 ht0 hmap
    have h0 : restoreMdImagesAndLinks b [l]
        (x ++ '<' :: '<' :: (w1 ++ ((t0 :: tk) ++ (w2 ++ '>' :: '>' :: y)))) =
        (parseTemplate (mdLinkMarkdown b l)).map (fun tpl =>
          tolerantSub ("MDLINK_".data ++ natStr 0) tpl
            (x ++ '<' :: '<' :: (w1 ++ ((t0 :: tk) ++ (w2 ++ '>' :: '>' :: y))))) := rfl
    rw [h0, parseTemplate_lits (mdLinkMarkdown b l) hbs]
    show some (tolerantSub ("MDLINK_".data ++ natStr 0) ((mdLinkMarkdown b l).map TItem.lit)
        (x ++ '<' :: '<' :: (w1 ++ ((t0 :: tk) ++ (w2 ++ '>' :: '>' :: y))))) = _
    refine congrArg some ?_
    rw [tolerantSub_hit ("MDLINK_".data ++ natStr 0) ((mdLinkMarkdown b l).map TItem.lit)
        x w1 t0 tk w2 y hx hy hw1 hw2 ht0 (by rw [hmap]; decide)]
    rw [fillTemplate_lits]
  · intro r s h
    show strReplace (phToken "FOOTNOTE_REF".data 0) r s = s
    refine strReplace_id _ r s ?_
    exact h
  · intro yml s h
    show strReplace "<<YAML>>".data yml s = s
    refine strReplace_id _ yml s ?_
    exact h
  · intro blk s h
    show strReplace (phToken "CALLOUT".data 0) blk s = s
    refine strReplace_id _ blk s ?_
    exact h
  · intro blk s h
    show strReplace (phToken "CODEBLOCK".data 0) blk s = s
    refine strReplace_id _ blk s ?_
    exact h

theorem c7_tolerance_split_witness :
    restoreInlineCode ["`x`".data]
        ("a ".data ++ '<' :: '<' ::
          (" ".data ++ (('i' :: "Nlinecode_0".data) ++ ("  ".data ++ '>' :: '>' :: " b".data)))) =
      some ("a ".data ++ ("`x`".data ++ " b".data)) ∧
    restoreFootnoteRefs ["[^a]".data] "plain text".data = "plain text".data ∧
    restoreYaml (some "---\nt: 1\n---".data) "<< yaml >>".data = "<< yaml >>".data ∧
    restoreCallouts ["body".data] "<<callout_0>>".data = "<<callout_0>>".data ∧
    restoreCodeBlocks ["body".data] "<< CODEBLOCK_0 >>".data = "<< CODEBLOCK_0 >>".data :=
  ⟨c7_tolerance_split.1 "`x`".data "a ".data " ".data 'i' "Nlinecode_0".data "  ".data
      " b".data (by decide) (by decide) (by decide) (by decide) (by decide) (by decide)
      (by decide),
   c7_tolerance_split.2.2.1 "[^a]".data "plain text".data (by decide),
   c7_tolerance_split.2.2.2.1 "---\nt: 1\n---".data "<< yaml >>".data (by decide),
   c7_tolerance_split.2.2.2.2.1 "body".data "<<callout_0>>".data (by decide),
   c7_tolerance_split.2.2.2.2.2.1 "body".data "<< CODEBLOCK_0 >>".data (by decide)⟩

/-! ## C8: line skip condition -/

/-- Claim C8 is false as stated: the skip test only looks at the stripped
line's first and last two characters, so a line holding two placeholders
with prose between them is also skipped although it does not consist
solely of one placeholder token. -/
theorem c8_counterexample :
    skipLine "<<A>> x <<B>>".data = true ∧
    specPlaceholderOnly "<<A>> x <<B>>".data = false := by
  constructor <;> decide

/-- Claim C8 (amended): a line is skipped exactly when it is
empty/whitespace-only or its stripped form starts with `<<` and ends with
`>>` (not necessarily a single placeholder token); skipped lines are left
unchanged by line processing for every backend. -/
theorem c8_skip_characterization (line : Str) :
    (skipLine line = true ↔
      (strip line = [] ∨
        ((strip line).take 2 = "<<".data ∧
          (strip line).reverse.take 2 = ">>".data.reverse))) ∧
    (skipLine line = true → ∀ b : Backend, processLine b line = line) := by
  constructor
  · unfold skipLine
    simp only [Bool.or_eq_true, Bool.and_eq_true, List.isEmpty_iff, List.isSuffixOf]
    rw [isPrefixOf_iff_take, isPrefixOf_iff_take]
    rw [show ("<<".data : Str).length = 2 from rfl,
        show (">>".data.reverse : Str).length = 2 from rfl]
    exact or_comm
  · intro h b
    unfold processLine
    rw [if_pos h]

theorem c8_skip_characterization_witness :
    skipLine "  <<YAML>>  ".data = true ∧
    processLine idBackend "  <<YAML>>  ".data = "  <<YAML>>  ".data :=
  ⟨by decide, (c8_skip_characterization "  <<YAML>>  ".data).2 (by decide) idBackend⟩

/-! ## C9: falsy backend replies -/

/-- Claim C9: when the backend call succeeds but returns `None` or an empty
string, the adapter returns the original input text. -/
theorem c9_falsy_reply (b : Backend) (s : Str)
    (h : b s = .ok none ∨ b s = .ok (some [])) :
    translateTextFragment b s = s := by
  unfold translateTextFragment translateTextFragmentT
  by_cases hs : (strip s).isEmpty = true
  · rw [if_pos hs]
  · rcases h with h | h <;> simp [hs, h]

theorem c9_falsy_reply_witness :
    translateTextFragment (fun _ => BResult.ok none) "abc".data = "abc".data ∧
    translateTextFragment (fun _ => BResult.ok (some [])) "abc".data = "abc".data :=
  ⟨c9_falsy_reply _ "abc".data (Or.inl rfl),
   c9_falsy_reply _ "abc".data (Or.inr rfl)⟩

/-! ## C10: footnote-definition normalization -/

/-- Claim C10: a footnote-definition line is rebuilt as the marker, one
space, and the stripped processed body — for both marker forms and every
backend; with the identity backend and a star-free body the output is
exactly marker, space, stripped body, so the original spacing around the
definition text is not preserved. -/
theorem c10_fndef_normalization :
    (∀ (b : Backend) (id body : Str), ']' ∉ id → id ≠ [] → '\n' ∉ body →
      processLine b ('[' :: '^' :: (id ++ ']' :: ':' :: body)) =
        ('[' :: '^' :: (id ++ [']', ':'])) ++ ' ' ::
          translateTextFragment b (fixMarkdownSpacing (translateBoldItalic b (strip body)))) ∧
    (∀ (b : Backend) (ds body : Str),
      (∀ c ∈ ds, c.isDigit = true) → ds ≠ [] → '\n' ∉ body →
      skipLine ("<<FOOTNOTE_REF_".data ++ (ds ++ '>' :: '>' :: ':' :: body)) = false →
      processLine b ("<<FOOTNOTE_REF_".data ++ (ds ++ '>' :: '>' :: ':' :: body)) =
        ("<<FOOTNOTE_REF_".data ++ ds ++ ['>', '>', ':']) ++ ' ' ::
          translateTextFragment b (fixMarkdownSpacing (translateBoldItalic b (strip body)))) ∧
    (∀ (id body : Str), ']' ∉ id → id ≠ [] → '\n' ∉ body → '*' ∉ body →
      processLine idBackend ('[' :: '^' :: (id ++ ']' :: ':' :: body)) =
        ('[' :: '^' :: (id ++ [']', ':'])) ++ ' ' :: strip body) := by
  refine ⟨processLine_fndef, processLine_fndef2, ?_⟩
  intro id body h2 hne hnl hstar
  rw [processLine_fndef idBackend id body h2 hne hnl]
  have hsub : '*' ∉ strip body := fun hm => hstar (mem_of_mem_strip body hm)
  rw [translateBoldItalic_id _ _ hsub, fixMarkdownSpacing_id _ hsub,
    translateTextFragment_idBackend]

theorem c10_fndef_normalization_witness :
    (']' ∉ ("a".data : Str) ∧ ("a".data : Str) ≠ [] ∧
      '\n' ∉ ("  hello  ".data : Str) ∧ '*' ∉ ("  hello  ".data : Str)) ∧
    processLine idBackend ('[' :: '^' :: ("a".data ++ ']' :: ':' :: "  hello  ".data)) =
      "[^a]: hello".data :=
  ⟨⟨by decide, by decide, by decide, by decide⟩, by
    rw [c10_fndef_normalization.2.2 "a".data "  hello  ".data
      (by decide) (by decide) (by decide) (by decide)]
    decide⟩

end MdTranslator
